import Mathlib

/-!
# Orbit simulator (`src/sim.c`): embedding and verified properties

The program keeps one process-wide `state` record.  `parse_args` fills it from
the command line, `start_up` derives the focus and the semi-latus rectum,
and `run` repeats `update; render; handle_events; SDL_Delay` until the
termination flag is set.

## Arithmetic

The orbit fields are C `float`s and the expressions of `update` are evaluated
in `double`.  The embedding is parametric in an `Arith F`: a field `F` of
values together with the two rounding maps (`toFloat` for a store into a
`float`, `toDouble` for the result of a `double` operation) and the libm
functions the code calls.  Two instances are used:

* `exactArith`: both roundings are the identity, so the arithmetic is read over the
  field itself (over `ℝ` with `Real.cos` and `Real.sin` it is the arithmetic
  of the reals);
* `ieeeArith`: `F = ℚ` with IEEE-754 round-to-nearest-even to binary32 and
  binary64 (finite values only; overflow to infinity and NaN are outside
  the model).

Machine integers are `Nat`/`Int` with explicit reduction modulo `2 ^ 32`.
-/

namespace Sim

/-! ## Constants of `sim.c` -/

/-- `#define DEFAULT_WINDOW_WIDTH 800`. -/
def DEFAULT_WINDOW_WIDTH : Int := 800

/-- `#define DEFAULT_WINDOW_HEIGHT 600`. -/
def DEFAULT_WINDOW_HEIGHT : Int := 600

/-- `#define DEFAULT_WINDOW_FLAGS 0`. -/
def DEFAULT_WINDOW_FLAGS : Nat := 0

/-- `#define FRAMES_PER_SECOND 60`. -/
def FRAMES_PER_SECOND : Nat := 60

/-- `#define MS_PER_FRAME (1000 / FRAMES_PER_SECOND)`, an integer division. -/
def MS_PER_FRAME : Nat := 1000 / FRAMES_PER_SECOND

/-- `#define MAX(x,y) (((x)>(y))? (x) : (y))`, used at type `int`. -/
def MAX (x y : Int) : Int := if x > y then x else y

/-- `#define MIN(x,y) (((x)<(y))? (x) : (y))`, used at type `int`. -/
def MIN (x y : Int) : Int := if x < y then x else y

/-! ## Constants of the SDL2 headers the code refers to -/

/-- Event type `SDL_QUIT` of `SDL_events.h`. -/
def SDL_QUIT : Nat := 0x100

/-- Event type `SDL_KEYDOWN` of `SDL_events.h`. -/
def SDL_KEYDOWN : Nat := 0x300

/-- Key code `SDLK_ESCAPE` of `SDL_keycode.h` (the character `'\x1B'`). -/
def SDLK_ESCAPE : Int := 27

/-- Window flag `SDL_WINDOW_FULLSCREEN` of `SDL_video.h`. -/
def SDL_WINDOW_FULLSCREEN : Nat := 0x00000001

/-! ## Arithmetic interface -/

/-- The arithmetic the C code runs on: how a value is rounded when it is
stored into a `float`, how the result of a `double` operation is rounded, and
the library functions `cos`, `sin` (of `math.h`) and `atof` (of `stdlib.h`). -/
structure Arith (F : Type) where
  /-- Conversion of a value to `float`. -/
  toFloat : F → F
  /-- Rounding of the result of a `double` operation (or literal). -/
  toDouble : F → F
  /-- `double cos(double)`. -/
  cos : F → F
  /-- `double sin(double)`. -/
  sin : F → F
  /-- `double atof(const char *)`. -/
  atof : String → F

/-- Arithmetic without rounding: every operation is the field operation. -/
def exactArith {F : Type} (cos sin : F → F) (atof : String → F) : Arith F :=
  { toFloat := id, toDouble := id, cos := cos, sin := sin, atof := atof }

/-- Round to the nearest integer, ties to the even one. -/
def roundHalfEven (q : ℚ) : ℤ :=
  let f := ⌊q⌋
  let d := q - f
  if d < 1 / 2 then f
  else if 1 / 2 < d then f + 1
  else if f % 2 = 0 then f else f + 1

/-- IEEE-754 round-to-nearest-even of a rational to the binary format with
`prec` significand bits and least normal exponent `emin` (binary32: 24 and
-126; binary64: 53 and -1022).  Below `2 ^ emin` the spacing is that of the
subnormals.  The exponent range is not bounded above: overflow is outside
the model. -/
def roundBinary (prec : ℕ) (emin : ℤ) (q : ℚ) : ℚ :=
  if q = 0 then 0
  else
    let e := max (Int.log 2 |q|) emin
    let ulp : ℚ := 2 ^ (e - ((prec : ℤ) - 1))
    (roundHalfEven (q / ulp) : ℚ) * ulp

/-- IEEE-754 arithmetic on finite values: `float` is binary32, `double` is
binary64, each operation is rounded to nearest, ties to even. -/
def ieeeArith (cos sin : ℚ → ℚ) (atof : String → ℚ) : Arith ℚ :=
  { toFloat := roundBinary 24 (-126), toDouble := roundBinary 53 (-1022),
    cos := cos, sin := sin, atof := atof }

/-! ## The state record -/

/-- The global `state` of `sim.c`.  The two SDL handles are recorded as
"non-null" flags. -/
structure State (F : Type) where
  window : Bool
  renderer : Bool
  window_width : Int
  window_height : Int
  window_flags : Nat
  quit : Int
  focus_x : Int
  focus_y : Int
  x : F
  y : F
  r : F
  e : F
  alpha : F
  theta : F
  p : F
  args : List String
  numargs : Nat

/-- `#define DEFAULT_ECCENTRICITY 0.0`. -/
def DEFAULT_ECCENTRICITY {F : Type} [Field F] : F := 0

/-- `#define DEFAULT_SEMI_MAJOR_AXIS 100.0`. -/
def DEFAULT_SEMI_MAJOR_AXIS {F : Type} [Field F] : F := 100

/-- `#define NON_ZERO(x) (((x)==0)? 0.000001f : (x))`: the `float` literal
`0.000001f` replaces an argument that compares equal to zero. -/
def NON_ZERO {F : Type} [Field F] [DecidableEq F] (A : Arith F) (x : F) : F :=
  if x = 0 then A.toFloat (1 / 1000000) else x

/-! ## `update` -/

/-- The body of `update`, statement by statement.
* `state.theta += 0.01;` adds the `double` literal in `double` and stores
  the sum into the `float` field;
* `state.r = state.p / NON_ZERO(1 + state.e * cos(state.theta));`
* `state.x = state.focus_x + state.r * cos(state.theta);`
* `state.y = state.focus_y + state.r * sin(state.theta);` -/
def update {F : Type} [Field F] [DecidableEq F] (A : Arith F) (s : State F) : State F :=
  let theta := A.toFloat (A.toDouble (s.theta + A.toDouble (1 / 100)))
  let r := A.toFloat (A.toDouble
    (s.p / NON_ZERO A (A.toDouble (1 + A.toDouble (s.e * A.cos theta)))))
  let x := A.toFloat (A.toDouble ((s.focus_x : F) + A.toDouble (r * A.cos theta)))
  let y := A.toFloat (A.toDouble ((s.focus_y : F) + A.toDouble (r * A.sin theta)))
  { s with theta := theta, r := r, x := x, y := y }

/-- The state after `n` calls of `update`. -/
def updates {F : Type} [Field F] [DecidableEq F] (A : Arith F) : ℕ → State F → State F
  | 0, s => s
  | n + 1, s => updates A n (update A s)

/-! ## Process exit -/

/-- A terminated process: its exit status and what it wrote to standard
error. -/
structure Exit where
  status : Int
  stderr : String
deriving DecidableEq, Repr

/-- `die(msg, ...)` with the message already formatted: writes `ERROR: `,
the message and a newline to standard error, calls `clean_up` and `exit(0)`. -/
def die (msg : String) : Exit :=
  { status := 0, stderr := "ERROR: " ++ msg ++ "\n" }

/-- `usage(progname)`: writes the help text to standard error, calls
`clean_up` and `exit(0)`. -/
def usage (progname : String) : Exit :=
  { status := 0,
    stderr := "usage: " ++ progname ++ " [options]\n" ++ "\n" ++ "options:\n"
      ++ "\t-h\n" ++ "\t\tDisplay this help message\n" }

/-! ## `start_up` -/

/-- What the SDL calls of `start_up` return: the result of `SDL_Init`, the
result of `SDL_CreateWindowAndRenderer` and the text of `SDL_GetError`. -/
structure SdlInit where
  init : Int
  create : Int
  error : String

/-- The body of `start_up`: either SDL call returning a negative value ends
the process through `die("%s", SDL_GetError())`; otherwise the handles are
set, the focus is the window size shifted right by one, and
`state.p = state.alpha * (1 - state.e * state.e)` is computed in `float`. -/
def start_up {F : Type} [Field F] (A : Arith F) (sdl : SdlInit) (s : State F) :
    Except Exit (State F) :=
  if sdl.init < 0 then .error (die sdl.error)
  else if sdl.create < 0 then .error (die sdl.error)
  else
    .ok { s with
      window := true
      renderer := true
      focus_x := s.window_width >>> 1
      focus_y := s.window_height >>> 1
      p := A.toFloat (s.alpha * A.toFloat (1 - A.toFloat (s.e * s.e))) }

/-! ## `parse_args` -/

/-- The record after `memset(&state, 0, sizeof(state))` and the default
assignments at the head of `parse_args`; `state.args` aliases `argv`. -/
def init_state {F : Type} [Field F] (argv : List String) : State F :=
  { window := false
    renderer := false
    window_width := DEFAULT_WINDOW_WIDTH
    window_height := DEFAULT_WINDOW_HEIGHT
    window_flags := DEFAULT_WINDOW_FLAGS
    quit := 0
    focus_x := 0
    focus_y := 0
    x := 0
    y := 0
    r := 0
    e := DEFAULT_ECCENTRICITY
    alpha := DEFAULT_SEMI_MAJOR_AXIS
    theta := 0
    p := 0
    args := argv
    numargs := 0 }

/-- One iteration of the `for` loop of `parse_args` at index `i < argc`,
its `i++` included: the next index and state, or the exit of the process.
`argv[i]` is read through `state.args`, which is the same array. -/
def parse_token {F : Type} (A : Arith F) (argc : Nat) (progname : String) (i : Nat)
    (s : State F) :
    Except Exit (Nat × State F) :=
  let tok := s.args.getD i ""
  if tok.data.head? = some '-' then
    if tok = "-h" then .error (usage progname)
    else if tok = "-f" then
      .ok (i + 1, { s with window_flags := s.window_flags ||| SDL_WINDOW_FULLSCREEN })
    else if tok = "-e" then
      if i + 1 ≥ argc then .error (die "-e flag expects a numerical argument")
      else .ok (i + 2, { s with e := A.toFloat (A.atof (s.args.getD (i + 1) "")) })
    else if tok = "-a" then
      if i + 1 ≥ argc then .error (die "-a flag expects a numerical argument")
      else .ok (i + 2, { s with alpha := A.toFloat (A.atof (s.args.getD (i + 1) "")) })
    else .error (die ("Unknown flag \"" ++ tok ++ "\""))
  else
    .ok (i + 1, { s with args := s.args.set s.numargs tok, numargs := s.numargs + 1 })

/-- The `for (int i = 1; i < argc; i++)` loop of `parse_args` from index `i`. -/
def parse_loop {F : Type} (A : Arith F) (argc : Nat) (progname : String) (i : Nat)
    (s : State F) :
    Except Exit (State F) :=
  if _hlt : i < argc then
    match _hstep : parse_token A argc progname i s with
    | .error x => .error x
    | .ok (j, t) => parse_loop A argc progname j t
  else .ok s
termination_by argc - i
decreasing_by
  have hlt : i < j := by
    unfold parse_token at _hstep
    simp only at _hstep
    split_ifs at _hstep <;>
      simp only [Except.ok.injEq, Prod.mk.injEq, reduceCtorEq] at _hstep <;> omega
  omega

/-- The function `parse_args(argc, argv)` with `argc` the length of `argv`. -/
def parse_args {F : Type} [Field F] (A : Arith F) (argv : List String) :
    Except Exit (State F) :=
  parse_loop A argv.length (argv.getD 0 "") 1 (init_state argv)

/-- The configuration the loop of `parse_args` is in after `n` iterations
from `(i, s)`: `none` when the loop has ended or the process has exited
before that. -/
def scan_after {F : Type} (A : Arith F) (argc : Nat) (progname : String) :
    Nat → Nat × State F → Option (Nat × State F)
  | 0, c => some c
  | n + 1, (i, s) =>
    if i < argc then
      match parse_token A argc progname i s with
      | .error _ => none
      | .ok c => scan_after A argc progname n c
    else none

/-! ## `handle_events` -/

/-- The fields of an `SDL_Event` the code reads: `e.type` and
`e.key.keysym.sym`. -/
structure Event where
  type : Nat
  sym : Int
deriving DecidableEq, Repr

/-- The body of the `while (SDL_PollEvent(&e))` loop for one event: the
outer `switch (e.type)` and the inner `switch (e.key.keysym.sym)`. -/
def handle_event {F : Type} (s : State F) (e : Event) : State F :=
  if e.type = SDL_QUIT then { s with quit := 1 }
  else if e.type = SDL_KEYDOWN then
    if e.sym = SDLK_ESCAPE then { s with quit := 1 } else s
  else s

/-- The function `handle_events` on the events pending in the queue, polled
in order until the queue is empty. -/
def handle_events {F : Type} (s : State F) (pending : List Event) : State F :=
  pending.foldl handle_event s

/-! ## Frame pacing -/

/-- Reduction of an integer to the range of `Uint32`. -/
def to_uint32 (z : Int) : Int := z % 2 ^ 32

/-- Conversion of a `Uint32` value to `Sint32` (two's complement). -/
def to_sint32 (u : Int) : Int := if u < 2 ^ 31 then u else u - 2 ^ 32

/-- `Sint32 delay = MS_PER_FRAME - (SDL_GetTicks() - start);` with `now` the
value `SDL_GetTicks()` returns: both subtractions are done in `Uint32`, the
result is converted to `Sint32`. -/
def frame_delay (start now : Nat) : Int :=
  let elapsed := to_uint32 ((now : Int) - (start : Int))
  to_sint32 (to_uint32 ((MS_PER_FRAME : Int) - elapsed))

/-- The argument of `SDL_Delay(MAX(delay, 0))`, converted to the `Uint32` the
function takes. -/
def frame_sleep (start now : Nat) : Int :=
  to_uint32 (MAX (frame_delay start now) 0)

/-! ## `run` and `main` -/

/-- What one iteration of `run` sees of the outside: the two readings of
`SDL_GetTicks` (each a `Uint32`) and the events pending when `handle_events`
is called. -/
structure Frame where
  start : Nat
  now : Nat
  events : List Event

/-- The calls `run` makes, in order. -/
inductive Action where
  | update
  | render
  | handle_events
  | delay (ms : Int)
deriving DecidableEq, Repr

/-- The calls of one iteration of the loop of `run`. -/
def frame_actions (f : Frame) : List Action :=
  [Action.update, Action.render, Action.handle_events,
    Action.delay (frame_sleep (f.start % 2 ^ 32) (f.now % 2 ^ 32))]

/-- The loop `while (state.quit != 1)` of `run` against a recorded list of
frames, with the log of the calls made so far.  The result is the state and
the log when the loop is left; `none` when the recorded frames are used up
while the loop is still running. -/
def run {F : Type} [Field F] [DecidableEq F] (A : Arith F) :
    List Frame → State F → List Action → Option (State F × List Action)
  | [], s, log => if s.quit ≠ 1 then none else some (s, log)
  | f :: rest, s, log =>
    if s.quit ≠ 1 then
      run A rest (handle_events (update A s) f.events) (log ++ frame_actions f)
    else some (s, log)

/-- The function `main`: `parse_args`, `start_up`, `run`, `clean_up`, and
`return EXIT_SUCCESS`.  The result is how the process ends, with the log of
the calls of `run`; `none` when the recorded frames are used up first. -/
def main {F : Type} [Field F] [DecidableEq F] (A : Arith F) (sdl : SdlInit)
    (argv : List String) (frames : List Frame) : Option (Exit × List Action) :=
  match parse_args A argv with
  | .error x => some (x, [])
  | .ok s0 =>
    match start_up A sdl s0 with
    | .error x => some (x, [])
    | .ok s1 =>
      match run A frames s1 [] with
      | none => none
      | some (_, log) => some ({ status := 0, stderr := "" }, log)

/-- A running state whose true anomaly has reached `2 ^ 18 = 262144`: the
default orbit after `start_up`, the fields being binary32 values. -/
def stalled_state : State ℚ :=
  { init_state ["sim"] with
    window := true
    renderer := true
    focus_x := 400
    focus_y := 300
    p := 100
    theta := 262144 }

/-- The invariant of the loop of `parse_args` on the array `argv`: at index
`i` the array has its length, the residual count is below `i`, and the
entries from `i` on are those of `argv` (the loop has written only below
`i`). -/
def ScanInv {F : Type} (argv : List String) (i : Nat) (s : State F) : Prop :=
  s.args.length = argv.length ∧ s.numargs < i ∧
    ∀ j, i ≤ j → s.args.getD j "" = argv.getD j ""

/-- Two states that differ at most in the entries of `args` from index `K`
on. -/
def AgreeUpTo {F : Type} (K : Nat) (s t : State F) : Prop :=
  ∃ l : List String, t = { s with args := l } ∧ ∀ j, j < K → s.args.getD j "" = l.getD j ""

/-- The events that ask for termination: a window-close request
(`SDL_QUIT`) or a key-press (`SDL_KEYDOWN`) of the escape key. -/
def quit_requested (e : Event) : Prop :=
  e.type = SDL_QUIT ∨ (e.type = SDL_KEYDOWN ∧ e.sym = SDLK_ESCAPE)

/-- Whether an event asks for termination can be computed. -/
instance quit_requested_decidable (e : Event) : Decidable (quit_requested e) :=
  inferInstanceAs (Decidable (e.type = SDL_QUIT ∨ (e.type = SDL_KEYDOWN ∧ e.sym = SDLK_ESCAPE)))

/-- The calls `run` makes over a list of frames, one iteration for each. -/
def frames_log : List Frame → List Action
  | [] => []
  | f :: rest => frame_actions f ++ frames_log rest

/-- The values of `atof` on the two numerals used in the examples. -/
def atof_sample (t : String) : ℚ :=
  if t = "0.5" then 1 / 2 else if t = "200" then 200 else 0

/-- A library is accurate at `t` when the values it returns for the cosine
and the sine of `t` are within `1 / 10 ^ 9` of the true ones. -/
def LibmAccurate (cos sin : ℚ → ℚ) (t : ℚ) : Prop :=
  |((cos t : ℚ) : ℝ) - Real.cos ((t : ℚ) : ℝ)| ≤ 1 / 1000000000 ∧
    |((sin t : ℚ) : ℝ) - Real.sin ((t : ℚ) : ℝ)| ≤ 1 / 1000000000

/-- A binary64 value of the cosine at `5368709 / 536870912`, the binary32
value nearest to 0.01 (the argument of the first call of `cos` when `theta`
starts at 0), as a C library returns it; 1 at every other argument.  The
value is within `1 / 10 ^ 9` of the true cosine (`sample_accurate`), and what
is proved with it holds for every library value within that distance. -/
def cos_sample (t : ℚ) : ℚ :=
  if t = 5368709 / 536870912 then 4503374449275687 / 4503599627370496 else 1

/-- A binary64 value of the sine at `5368709 / 536870912`, as a C library
returns it; 0 at every other argument. -/
def sin_sample (t : ℚ) : ℚ :=
  if t = 5368709 / 536870912 then 5764511317879991 / 576460752303423488 else 0

/-- The record `parse_args` leaves for `sim -e 0.1 -a 100`: `e` is the
binary32 value nearest to 0.1. -/
def tenth_state : State ℚ :=
  { init_state ["sim", "-e", "0.1", "-a", "100"] with
    e := 13421773 / 134217728
    alpha := 100 }

/-! ## Rounding lemmas -/

/-- A rational within one half of an integer rounds to that integer. -/
theorem roundHalfEven_of_near (q : ℚ) (n : ℤ) (h1 : (n : ℚ) - 1 / 2 < q)
    (h2 : q < (n : ℚ) + 1 / 2) : roundHalfEven q = n := by
  unfold roundHalfEven
  rcases le_or_lt (n : ℚ) q with hq | hq
  · have hf : ⌊q⌋ = n := by
      rw [Int.floor_eq_iff]
      constructor
      · exact hq
      · linarith
    simp only [hf]
    rw [if_pos (by linarith)]
  · have hf : ⌊q⌋ = n - 1 := by
      rw [Int.floor_eq_iff]
      push_cast
      constructor <;> linarith
    simp only [hf]
    push_cast
    rw [if_neg (by linarith), if_pos (by linarith)]
    ring

/-- The binary exponent of a rational between two consecutive powers of two. -/
theorem int_log_two_eq (q : ℚ) (e : ℤ) (h1 : (2 : ℚ) ^ e ≤ |q|)
    (h2 : |q| < (2 : ℚ) ^ (e + 1)) : Int.log 2 |q| = e := by
  have hpos : (0 : ℚ) < |q| := lt_of_lt_of_le (by positivity) h1
  have ha : e ≤ Int.log 2 |q| := by
    rw [← Int.zpow_le_iff_le_log (by norm_num) hpos]
    exact_mod_cast h1
  have hb : Int.log 2 |q| < e + 1 := by
    rw [← Int.lt_zpow_iff_log_lt (by norm_num) hpos]
    exact_mod_cast h2
  omega

/-- Evaluation of `roundBinary` at a normal value: with `e` the binary
exponent of `q` and `n` the integer nearest to `q / 2 ^ (e - (prec - 1))`,
the result is `n * 2 ^ (e - (prec - 1))`. -/
theorem roundBinary_eq (prec : ℕ) (emin : ℤ) (q : ℚ) (e n : ℤ) (hemin : emin ≤ e)
    (h1 : (2 : ℚ) ^ e ≤ |q|) (h2 : |q| < (2 : ℚ) ^ (e + 1))
    (hn1 : (n : ℚ) - 1 / 2 < q / 2 ^ (e - ((prec : ℤ) - 1)))
    (hn2 : q / 2 ^ (e - ((prec : ℤ) - 1)) < (n : ℚ) + 1 / 2) :
    roundBinary prec emin q = (n : ℚ) * 2 ^ (e - ((prec : ℤ) - 1)) := by
  have hpos : (0 : ℚ) < |q| := lt_of_lt_of_le (by positivity) h1
  have hq : q ≠ 0 := abs_pos.mp hpos
  unfold roundBinary
  rw [if_neg hq]
  simp only [int_log_two_eq q e h1 h2, max_eq_left hemin]
  rw [roundHalfEven_of_near _ n hn1 hn2]

/-- The `double` literal `0.01`. -/
theorem toDouble_one_hundredth :
    roundBinary 53 (-1022) (1 / 100) = 5764607523034235 / 576460752303423488 := by
  rw [roundBinary_eq 53 (-1022) (1 / 100) (-7) 5764607523034235 (by norm_num)
    (by rw [abs_of_pos (by norm_num)]; norm_num)
    (by rw [abs_of_pos (by norm_num)]; norm_num) (by norm_num) (by norm_num)]
  norm_num

/-- With `theta = 2 ^ 18 = 262144` the statement `state.theta += 0.01`
leaves `theta` unchanged in IEEE arithmetic: the spacing of binary32 values
there is `1 / 32`. -/
theorem ieee_theta_step_262144 :
    roundBinary 24 (-126) (roundBinary 53 (-1022)
      (262144 + roundBinary 53 (-1022) (1 / 100))) = 262144 := by
  rw [toDouble_one_hundredth]
  rw [roundBinary_eq 53 (-1022) _ 18 4503599799169188 (by norm_num)
    (by rw [abs_of_pos (by norm_num)]; norm_num)
    (by rw [abs_of_pos (by norm_num)]; norm_num) (by norm_num) (by norm_num)]
  rw [roundBinary_eq 24 (-126) _ 18 8388608 (by norm_num)
    (by rw [abs_of_pos (by norm_num)]; norm_num)
    (by rw [abs_of_pos (by norm_num)]; norm_num) (by norm_num) (by norm_num)]
  norm_num

/-! ## Rounding error and the default orbit in IEEE arithmetic -/

/-- Rounding to the nearest integer moves a rational by at most one half. -/
theorem roundHalfEven_error (q : ℚ) : |(roundHalfEven q : ℚ) - q| ≤ 1 / 2 := by
  have h1 : ((⌊q⌋ : ℤ) : ℚ) ≤ q := Int.floor_le q
  have h2 : q < ((⌊q⌋ : ℤ) : ℚ) + 1 := Int.lt_floor_add_one q
  unfold roundHalfEven
  simp only
  rw [abs_le]
  split_ifs with ha hb hc
  · constructor <;> linarith
  · push_cast
    constructor <;> linarith
  · constructor <;> linarith
  · push_cast
    constructor <;> linarith

/-- Rounding a normal value with binary exponent `e` to `prec` significand
bits moves it by at most half a unit in the last place, `2 ^ (e - prec)`. -/
theorem roundBinary_error (prec : ℕ) (emin : ℤ) (q : ℚ) (e : ℤ) (hemin : emin ≤ e)
    (h1 : (2 : ℚ) ^ e ≤ |q|) (h2 : |q| < (2 : ℚ) ^ (e + 1)) :
    |roundBinary prec emin q - q| ≤ (2 : ℚ) ^ (e - (prec : ℤ)) := by
  have hpos : (0 : ℚ) < |q| := lt_of_lt_of_le (by positivity) h1
  have hq : q ≠ 0 := abs_pos.mp hpos
  unfold roundBinary
  rw [if_neg hq]
  simp only [int_log_two_eq q e h1 h2, max_eq_left hemin]
  have hu : (2 : ℚ) ^ (e - ((prec : ℤ) - 1)) = 2 * (2 : ℚ) ^ (e - (prec : ℤ)) := by
    rw [show e - ((prec : ℤ) - 1) = (e - (prec : ℤ)) + 1 by ring, zpow_add_one₀ (by norm_num)]
    ring
  have hv : (0 : ℚ) < (2 : ℚ) ^ (e - (prec : ℤ)) := by positivity
  rw [hu]
  generalize (2 : ℚ) ^ (e - (prec : ℤ)) = v at hv ⊢
  have herr := roundHalfEven_error (q / (2 * v))
  rw [abs_le] at herr ⊢
  obtain ⟨ha, hb⟩ := herr
  have hq2 : q = q / (2 * v) * (2 * v) := by field_simp
  generalize (roundHalfEven (q / (2 * v)) : ℚ) = n at ha hb ⊢
  generalize q / (2 * v) = t at ha hb hq2
  subst hq2
  constructor <;> nlinarith

/-- The abscissa the first `update` of the default orbit stores in IEEE
arithmetic, for every value `c` the library can return for the cosine of
the new `theta` that lies within `2 / 10 ^ 9` of `0.99995`. -/
theorem ieee_default_x (c : ℚ) (hlo : 999949998 / 1000000000 ≤ c)
    (hhi : c ≤ 999950002 / 1000000000) :
    roundBinary 24 (-126) (roundBinary 53 (-1022) (400 + roundBinary 53 (-1022) (100 * c)))
      = 4095959 / 8192 := by
  have hpos : (0 : ℚ) < 100 * c := by linarith
  have ha := roundBinary_error 53 (-1022) (100 * c) 6 (by norm_num)
    (by rw [abs_of_pos hpos]; norm_num; linarith)
    (by rw [abs_of_pos hpos]; norm_num; linarith)
  norm_num at ha
  rw [abs_le] at ha
  obtain ⟨ha1, ha2⟩ := ha
  generalize roundBinary 53 (-1022) (100 * c) = a at ha1 ha2 ⊢
  have hbpos : (0 : ℚ) < 400 + a := by linarith
  have hb := roundBinary_error 53 (-1022) (400 + a) 8 (by norm_num)
    (by rw [abs_of_pos hbpos]; norm_num; linarith)
    (by rw [abs_of_pos hbpos]; norm_num; linarith)
  norm_num at hb
  rw [abs_le] at hb
  obtain ⟨hb1, hb2⟩ := hb
  generalize roundBinary 53 (-1022) (400 + a) = b at hb1 hb2 ⊢
  have hb0 : (0 : ℚ) < b := by linarith
  rw [roundBinary_eq 24 (-126) b 8 16383836 (by norm_num)
    (by rw [abs_of_pos hb0]; norm_num; linarith)
    (by rw [abs_of_pos hb0]; norm_num; linarith)
    (by norm_num; linarith) (by norm_num; linarith)]
  norm_num

/-- The ordinate the first `update` of the default orbit stores in IEEE
arithmetic, for every value `s` the library can return for the sine of the
new `theta` that lies within `2 / 10 ^ 9` of `0.009999833`. -/
theorem ieee_default_y (s : ℚ) (hlo : 9999831 / 1000000000 ≤ s)
    (hhi : s ≤ 9999835 / 1000000000) :
    roundBinary 24 (-126) (roundBinary 53 (-1022) (300 + roundBinary 53 (-1022) (100 * s)))
      = 9863167 / 32768 := by
  have hpos : (0 : ℚ) < 100 * s := by linarith
  have ha := roundBinary_error 53 (-1022) (100 * s) (-1) (by norm_num)
    (by rw [abs_of_pos hpos]; norm_num; linarith)
    (by rw [abs_of_pos hpos]; norm_num; linarith)
  norm_num at ha
  rw [abs_le] at ha
  obtain ⟨ha1, ha2⟩ := ha
  generalize roundBinary 53 (-1022) (100 * s) = a at ha1 ha2 ⊢
  have hbpos : (0 : ℚ) < 300 + a := by linarith
  have hb := roundBinary_error 53 (-1022) (300 + a) 8 (by norm_num)
    (by rw [abs_of_pos hbpos]; norm_num; linarith)
    (by rw [abs_of_pos hbpos]; norm_num; linarith)
  norm_num at hb
  rw [abs_le] at hb
  obtain ⟨hb1, hb2⟩ := hb
  generalize roundBinary 53 (-1022) (300 + a) = b at hb1 hb2 ⊢
  have hb0 : (0 : ℚ) < b := by linarith
  rw [roundBinary_eq 24 (-126) b 8 9863167 (by norm_num)
    (by rw [abs_of_pos hb0]; norm_num; linarith)
    (by rw [abs_of_pos hb0]; norm_num; linarith)
    (by norm_num; linarith) (by norm_num; linarith)]
  norm_num


/-- A value that is an integer multiple of the unit in the last place of its
binade is left unchanged by rounding. -/
theorem roundBinary_fix (prec : ℕ) (emin : ℤ) (q : ℚ) (e n : ℤ) (hemin : emin ≤ e)
    (h1 : (2 : ℚ) ^ e ≤ |q|) (h2 : |q| < (2 : ℚ) ^ (e + 1))
    (hq : q = (n : ℚ) * 2 ^ (e - ((prec : ℤ) - 1))) : roundBinary prec emin q = q := by
  have hu : (0 : ℚ) < 2 ^ (e - ((prec : ℤ) - 1)) := by positivity
  have hdiv : q / 2 ^ (e - ((prec : ℤ) - 1)) = (n : ℚ) := by
    rw [hq]
    field_simp
  rw [roundBinary_eq prec emin q e n hemin h1 h2 (by rw [hdiv]; linarith)
    (by rw [hdiv]; linarith)]
  exact hq.symm

/-- Zero rounds to zero. -/
theorem roundBinary_zero (prec : ℕ) (emin : ℤ) : roundBinary prec emin 0 = 0 := by
  unfold roundBinary
  rw [if_pos rfl]

/-- The number 1 is a binary32 value. -/
theorem toFloat_one : roundBinary 24 (-126) 1 = 1 :=
  roundBinary_fix 24 (-126) 1 0 8388608 (by norm_num) (by norm_num) (by norm_num)
    (by norm_num)

/-- The number 100 is a binary32 value. -/
theorem toFloat_hundred : roundBinary 24 (-126) 100 = 100 :=
  roundBinary_fix 24 (-126) 100 6 13107200 (by norm_num) (by norm_num) (by norm_num)
    (by norm_num)

/-- The number 1 is a binary64 value. -/
theorem toDouble_one : roundBinary 53 (-1022) 1 = 1 :=
  roundBinary_fix 53 (-1022) 1 0 4503599627370496 (by norm_num) (by norm_num) (by norm_num)
    (by norm_num)

/-- The number 100 is a binary64 value. -/
theorem toDouble_hundred : roundBinary 53 (-1022) 100 = 100 :=
  roundBinary_fix 53 (-1022) 100 6 7036874417766400 (by norm_num) (by norm_num)
    (by norm_num) (by norm_num)

/-- From `theta = 0` the statement `state.theta += 0.01` stores the binary32
value nearest to 0.01. -/
theorem ieee_theta_first :
    roundBinary 24 (-126) (roundBinary 53 (-1022) (0 + roundBinary 53 (-1022) (1 / 100)))
      = 5368709 / 536870912 := by
  rw [toDouble_one_hundredth, zero_add]
  rw [roundBinary_fix 53 (-1022) _ (-7) 5764607523034235 (by norm_num)
    (by rw [abs_of_pos (by norm_num)]; norm_num)
    (by rw [abs_of_pos (by norm_num)]; norm_num) (by norm_num)]
  rw [roundBinary_eq 24 (-126) _ (-7) 10737418 (by norm_num)
    (by rw [abs_of_pos (by norm_num)]; norm_num)
    (by rw [abs_of_pos (by norm_num)]; norm_num) (by norm_num) (by norm_num)]
  norm_num

/-- In IEEE arithmetic a circular orbit (`e = 0`) with `p = 100` has the
stored radius 100 after every call of `update`. -/
theorem ieee_r_circular (cos sin : ℚ → ℚ) (atof : String → ℚ) (t : State ℚ)
    (hp : t.p = 100) (he : t.e = 0) : (update (ieeeArith cos sin atof) t).r = 100 := by
  show roundBinary 24 (-126) (roundBinary 53 (-1022)
    (t.p / NON_ZERO (ieeeArith cos sin atof) (roundBinary 53 (-1022)
      (1 + roundBinary 53 (-1022) (t.e * cos (update (ieeeArith cos sin atof) t).theta)))))
    = 100
  rw [hp, he, zero_mul, roundBinary_zero, add_zero, toDouble_one]
  unfold NON_ZERO
  rw [if_neg one_ne_zero, div_one, toDouble_hundred, toFloat_hundred]

/-- In IEEE arithmetic `start_up` stores `p = 100` for `e = 0`, `alpha = 100`. -/
theorem ieee_p_default :
    roundBinary 24 (-126) (100 * roundBinary 24 (-126) (1 - roundBinary 24 (-126) (0 * 0)))
      = 100 := by
  rw [zero_mul, roundBinary_zero, sub_zero, toFloat_one, mul_one, toFloat_hundred]

/-- In IEEE arithmetic `start_up` stores `p = 150` for `e = 0.5`, `alpha = 200`. -/
theorem ieee_p_half :
    roundBinary 24 (-126)
        (200 * roundBinary 24 (-126) (1 - roundBinary 24 (-126) ((1 / 2) * (1 / 2))))
      = 150 := by
  rw [roundBinary_fix 24 (-126) ((1 / 2) * (1 / 2)) (-2) 8388608 (by norm_num)
    (by rw [abs_of_pos (by norm_num)]; norm_num)
    (by rw [abs_of_pos (by norm_num)]; norm_num) (by norm_num)]
  rw [roundBinary_fix 24 (-126) (1 - (1 / 2) * (1 / 2)) (-1) 12582912 (by norm_num)
    (by rw [abs_of_pos (by norm_num)]; norm_num)
    (by rw [abs_of_pos (by norm_num)]; norm_num) (by norm_num)]
  rw [roundBinary_fix 24 (-126) (200 * (1 - (1 / 2) * (1 / 2))) 7 9830400 (by norm_num)
    (by rw [abs_of_pos (by norm_num)]; norm_num)
    (by rw [abs_of_pos (by norm_num)]; norm_num) (by norm_num)]
  norm_num

/-- In IEEE arithmetic `start_up` stores `p = 99` for `e = 0.1f`,
`alpha = 100`. -/
theorem ieee_p_tenth :
    roundBinary 24 (-126)
        (100 * roundBinary 24 (-126)
          (1 - roundBinary 24 (-126) ((13421773 / 134217728) * (13421773 / 134217728))))
      = 99 := by
  have h1 : roundBinary 24 (-126) ((13421773 / 134217728) * (13421773 / 134217728))
      = 10737419 / 1073741824 := by
    rw [roundBinary_eq 24 (-126) _ (-7) 10737419 (by norm_num)
      (by rw [abs_of_pos (by norm_num)]; norm_num)
      (by rw [abs_of_pos (by norm_num)]; norm_num) (by norm_num) (by norm_num)]
    norm_num
  have h2 : roundBinary 24 (-126) (1 - 10737419 / 1073741824) = 4152361 / 4194304 := by
    rw [roundBinary_eq 24 (-126) _ (-1) 16609444 (by norm_num)
      (by rw [abs_of_pos (by norm_num)]; norm_num)
      (by rw [abs_of_pos (by norm_num)]; norm_num) (by norm_num) (by norm_num)]
    norm_num
  have h3 : roundBinary 24 (-126) (100 * (4152361 / 4194304)) = 99 := by
    rw [roundBinary_eq 24 (-126) _ 6 12976128 (by norm_num)
      (by rw [abs_of_pos (by norm_num)]; norm_num)
      (by rw [abs_of_pos (by norm_num)]; norm_num) (by norm_num) (by norm_num)]
    norm_num
  rw [h1, h2, h3]

/-- The radius the first `update` stores in IEEE arithmetic for `p = 99` and
`e = 0.1f`, for every value `c` the library can return for the cosine that
lies within `2 / 10 ^ 9` of `0.99995`: the divisor is positive, the stored
radius is `5898267 / 65536`, and the quotient `p / (1 + e * c)` itself lies
strictly below it. -/
theorem ieee_tenth_r (c : ℚ) (hlo : 999949998 / 1000000000 ≤ c)
    (hhi : c ≤ 999950002 / 1000000000) :
    0 < roundBinary 53 (-1022) (1 + roundBinary 53 (-1022) ((13421773 / 134217728) * c)) ∧
    roundBinary 24 (-126) (roundBinary 53 (-1022)
        (99 / roundBinary 53 (-1022)
          (1 + roundBinary 53 (-1022) ((13421773 / 134217728) * c))))
      = 5898267 / 65536 ∧
    99 / (1 + (13421773 / 134217728) * c) < 5898267 / 65536 := by
  have hpos : (0 : ℚ) < (13421773 / 134217728) * c := by nlinarith
  have hden : (0 : ℚ) < 1 + (13421773 / 134217728) * c := by linarith
  have hquot : 99 / (1 + (13421773 / 134217728) * c) < 5898267 / 65536 := by
    rw [div_lt_iff₀ hden]
    linarith
  have ha := roundBinary_error 53 (-1022) ((13421773 / 134217728) * c) (-4) (by norm_num)
    (by rw [abs_of_pos hpos]; norm_num; linarith)
    (by rw [abs_of_pos hpos]; norm_num; linarith)
  norm_num at ha
  rw [abs_le] at ha
  obtain ⟨ha1, ha2⟩ := ha
  generalize roundBinary 53 (-1022) ((13421773 / 134217728) * c) = a at ha1 ha2 ⊢
  have hbpos : (0 : ℚ) < 1 + a := by linarith
  have hb := roundBinary_error 53 (-1022) (1 + a) 0 (by norm_num)
    (by rw [abs_of_pos hbpos]; norm_num; linarith)
    (by rw [abs_of_pos hbpos]; norm_num; linarith)
  norm_num at hb
  rw [abs_le] at hb
  obtain ⟨hb1, hb2⟩ := hb
  generalize roundBinary 53 (-1022) (1 + a) = b at hb1 hb2 ⊢
  have hb0 : (0 : ℚ) < b := by linarith
  refine ⟨hb0, ?_, hquot⟩
  have hq1 : (9000040895 / 100000000 : ℚ) ≤ 99 / b := by
    rw [le_div_iff₀ hb0]
    linarith
  have hq2 : 99 / b ≤ (9000040899 / 100000000 : ℚ) := by
    rw [div_le_iff₀ hb0]
    linarith
  have hqpos : (0 : ℚ) < 99 / b := by linarith
  have hd := roundBinary_error 53 (-1022) (99 / b) 6 (by norm_num)
    (by rw [abs_of_pos hqpos]; norm_num; linarith)
    (by rw [abs_of_pos hqpos]; norm_num; linarith)
  norm_num at hd
  rw [abs_le] at hd
  obtain ⟨hd1, hd2⟩ := hd
  generalize roundBinary 53 (-1022) (99 / b) = d at hd1 hd2 ⊢
  have hd0 : (0 : ℚ) < d := by linarith
  rw [roundBinary_eq 24 (-126) d 6 11796534 (by norm_num)
    (by rw [abs_of_pos hd0]; norm_num; linarith)
    (by rw [abs_of_pos hd0]; norm_num; linarith)
    (by norm_num; linarith) (by norm_num; linarith)]
  norm_num


/-- Bounds on the values an accurate library returns for the cosine and the
sine of the binary32 value nearest to 0.01. -/
theorem libm_bounds (cos sin : ℚ → ℚ) (h : LibmAccurate cos sin (5368709 / 536870912)) :
    999949998 / 1000000000 ≤ cos (5368709 / 536870912) ∧
      cos (5368709 / 536870912) ≤ 999950002 / 1000000000 ∧
      9999831 / 1000000000 ≤ sin (5368709 / 536870912) ∧
      sin (5368709 / 536870912) ≤ 9999835 / 1000000000 := by
  obtain ⟨hc, hs⟩ := h
  have hx : |((5368709 / 536870912 : ℚ) : ℝ)| ≤ 1 := by
    push_cast
    rw [abs_of_pos (by norm_num)]
    norm_num
  have hcb := Real.cos_bound hx
  have hsb := Real.sin_bound hx
  push_cast at hc hs hcb hsb
  rw [abs_of_pos (by norm_num : (0 : ℝ) < 5368709 / 536870912)] at hcb hsb
  rw [abs_le] at hc hs hcb hsb
  norm_num at hcb hsb
  have c1 : ((999949998 / 1000000000 : ℚ) : ℝ) ≤ ((cos (5368709 / 536870912) : ℚ) : ℝ) := by
    push_cast
    linarith
  have c2 : ((cos (5368709 / 536870912) : ℚ) : ℝ) ≤ ((999950002 / 1000000000 : ℚ) : ℝ) := by
    push_cast
    linarith
  have s1 : ((9999831 / 1000000000 : ℚ) : ℝ) ≤ ((sin (5368709 / 536870912) : ℚ) : ℝ) := by
    push_cast
    linarith
  have s2 : ((sin (5368709 / 536870912) : ℚ) : ℝ) ≤ ((9999835 / 1000000000 : ℚ) : ℝ) := by
    push_cast
    linarith
  exact ⟨by exact_mod_cast c1, by exact_mod_cast c2, by exact_mod_cast s1,
    by exact_mod_cast s2⟩

/-- The sample values are within `1 / 10 ^ 9` of the cosine and the sine. -/
theorem sample_accurate : LibmAccurate cos_sample sin_sample (5368709 / 536870912) := by
  have hx : |((5368709 / 536870912 : ℚ) : ℝ)| ≤ 1 := by
    push_cast
    rw [abs_of_pos (by norm_num)]
    norm_num
  have hcb := Real.cos_bound hx
  have hsb := Real.sin_bound hx
  have hcv : cos_sample (5368709 / 536870912) = 4503374449275687 / 4503599627370496 := by
    unfold cos_sample
    rw [if_pos rfl]
  have hsv : sin_sample (5368709 / 536870912) = 5764511317879991 / 576460752303423488 := by
    unfold sin_sample
    rw [if_pos rfl]
  unfold LibmAccurate
  rw [hcv, hsv]
  push_cast at hcb hsb ⊢
  rw [abs_of_pos (by norm_num : (0 : ℝ) < 5368709 / 536870912)] at hcb hsb
  rw [abs_le] at hcb hsb ⊢
  rw [abs_le]
  norm_num at hcb hsb ⊢
  refine ⟨⟨?_, ?_⟩, ⟨?_, ?_⟩⟩ <;> linarith

/-! ## Basic facts about `update` -/

/-- Only the rounded addition of `0.01` acts on `theta`. -/
theorem update_theta {F : Type} [Field F] [DecidableEq F] (A : Arith F) (s : State F) :
    (update A s).theta = A.toFloat (A.toDouble (s.theta + A.toDouble (1 / 100))) := rfl

/-- The last of `n + 1` calls of `update`. -/
theorem updates_succ_last {F : Type} [Field F] [DecidableEq F] (A : Arith F) (n : ℕ)
    (s : State F) : updates A (n + 1) s = update A (updates A n s) := by
  induction n generalizing s with
  | zero => rfl
  | succ k ih =>
    show updates A (k + 1) (update A s) = update A (updates A (k + 1) s)
    rw [ih (update A s)]
    rfl

/-- The true anomaly after `n` calls is the `n`-fold rounded addition. -/
theorem updates_theta_iterate {F : Type} [Field F] [DecidableEq F] (A : Arith F) (n : ℕ)
    (s : State F) :
    (updates A n s).theta
      = (fun t => A.toFloat (A.toDouble (t + A.toDouble (1 / 100))))^[n] s.theta := by
  induction n generalizing s with
  | zero => rfl
  | succ k ih =>
    show (updates A k (update A s)).theta = _
    rw [ih (update A s), Function.iterate_succ_apply, update_theta]

/-- In exact arithmetic `n` calls add `n` hundredths. -/
theorem updates_theta_exact {F : Type} [Field F] [DecidableEq F] (cos sin : F → F)
    (atof : String → F) (n : ℕ) (s : State F) :
    (updates (exactArith cos sin atof) n s).theta = s.theta + (n : F) * (1 / 100) := by
  induction n generalizing s with
  | zero => simp [updates]
  | succ k ih =>
    show (updates (exactArith cos sin atof) k (update (exactArith cos sin atof) s)).theta = _
    rw [ih, update_theta]
    simp only [exactArith, id]
    push_cast
    ring

/-- In IEEE arithmetic a true anomaly of 262144 is a fixed point of
`update`, whatever the other fields are. -/
theorem ieee_updates_theta_stall (cos sin : ℚ → ℚ) (atof : String → ℚ) (n : ℕ)
    (s : State ℚ) (h : s.theta = 262144) :
    (updates (ieeeArith cos sin atof) n s).theta = 262144 := by
  induction n generalizing s with
  | zero => exact h
  | succ k ih =>
    show (updates (ieeeArith cos sin atof) k (update (ieeeArith cos sin atof) s)).theta = _
    apply ih
    rw [update_theta, h]
    exact ieee_theta_step_262144

/-- With both SDL calls succeeding `start_up` returns the enriched record. -/
theorem start_up_ok {F : Type} [Field F] (A : Arith F) (sdl : SdlInit) (s : State F)
    (hinit : 0 ≤ sdl.init) (hcreate : 0 ≤ sdl.create) :
    start_up A sdl s = .ok { s with
      window := true
      renderer := true
      focus_x := s.window_width >>> 1
      focus_y := s.window_height >>> 1
      p := A.toFloat (s.alpha * A.toFloat (1 - A.toFloat (s.e * s.e))) } := by
  unfold start_up
  rw [if_neg (by omega), if_neg (by omega)]

/-- The radius `update` stores in exact arithmetic. -/
theorem update_r_exact {F : Type} [Field F] [DecidableEq F] (cos sin : F → F)
    (atof : String → F) (s : State F) :
    (update (exactArith cos sin atof) s).r
      = s.p / NON_ZERO (exactArith cos sin atof)
          (1 + s.e * cos (update (exactArith cos sin atof) s).theta) := rfl

/-- The abscissa `update` stores in exact arithmetic. -/
theorem update_x_exact {F : Type} [Field F] [DecidableEq F] (cos sin : F → F)
    (atof : String → F) (s : State F) :
    (update (exactArith cos sin atof) s).x
      = (s.focus_x : F) + (update (exactArith cos sin atof) s).r
          * cos (update (exactArith cos sin atof) s).theta := rfl

/-- The ordinate `update` stores in exact arithmetic. -/
theorem update_y_exact {F : Type} [Field F] [DecidableEq F] (cos sin : F → F)
    (atof : String → F) (s : State F) :
    (update (exactArith cos sin atof) s).y
      = (s.focus_y : F) + (update (exactArith cos sin atof) s).r
          * sin (update (exactArith cos sin atof) s).theta := rfl

/-- The fields `update` does not write. -/
theorem update_frame {F : Type} [Field F] [DecidableEq F] (A : Arith F) (s : State F) :
    (update A s).p = s.p ∧ (update A s).e = s.e ∧ (update A s).alpha = s.alpha ∧
      (update A s).focus_x = s.focus_x ∧ (update A s).focus_y = s.focus_y ∧
      (update A s).quit = s.quit :=
  ⟨rfl, rfl, rfl, rfl, rfl, rfl⟩

/-- The fields no number of calls of `update` writes. -/
theorem updates_frame {F : Type} [Field F] [DecidableEq F] (A : Arith F) (n : ℕ)
    (s : State F) :
    (updates A n s).p = s.p ∧ (updates A n s).e = s.e ∧ (updates A n s).alpha = s.alpha ∧
      (updates A n s).focus_x = s.focus_x ∧ (updates A n s).focus_y = s.focus_y ∧
      (updates A n s).quit = s.quit := by
  induction n generalizing s with
  | zero => exact ⟨rfl, rfl, rfl, rfl, rfl, rfl⟩
  | succ k ih => exact ih (update A s)

/-- For an eccentricity in `[0, 1)` the denominator of the orbit equation
lies between `1 - e` and `1 + e`, and is positive. -/
theorem denominator_bounds (e theta : ℝ) (h0 : 0 ≤ e) (h1 : e < 1) :
    1 - e ≤ 1 + e * Real.cos theta ∧ 1 + e * Real.cos theta ≤ 1 + e ∧
      0 < 1 + e * Real.cos theta := by
  have hc1 : Real.cos theta ≤ 1 := Real.cos_le_one theta
  have hc2 : -1 ≤ Real.cos theta := Real.neg_one_le_cos theta
  have ha : e * Real.cos theta ≤ e := by nlinarith
  have hb : -e ≤ e * Real.cos theta := by nlinarith
  refine ⟨by linarith, by linarith, by linarith⟩

/-- The position `update` stores in exact real arithmetic lies at distance
`r` from the focus. -/
theorem update_on_circle (atof : String → ℝ) (s : State ℝ) :
    ((update (exactArith Real.cos Real.sin atof) s).x - (s.focus_x : ℝ)) ^ 2
        + ((update (exactArith Real.cos Real.sin atof) s).y - (s.focus_y : ℝ)) ^ 2
      = (update (exactArith Real.cos Real.sin atof) s).r ^ 2 := by
  rw [update_x_exact, update_y_exact]
  have h := Real.sin_sq_add_cos_sq (update (exactArith Real.cos Real.sin atof) s).theta
  generalize (update (exactArith Real.cos Real.sin atof) s).r = r at h ⊢
  generalize (update (exactArith Real.cos Real.sin atof) s).theta = t at h ⊢
  have e1 : ((s.focus_x : ℝ) + r * Real.cos t - (s.focus_x : ℝ)) ^ 2
      + ((s.focus_y : ℝ) + r * Real.sin t - (s.focus_y : ℝ)) ^ 2
      = r ^ 2 * (Real.sin t ^ 2 + Real.cos t ^ 2) := by ring
  rw [e1, h, mul_one]

/-- The `float` literal `0.000001f`. -/
theorem toFloat_epsilon :
    roundBinary 24 (-126) (1 / 1000000) = 8796093 / 8796093022208 := by
  rw [roundBinary_eq 24 (-126) (1 / 1000000) (-20) 8796093 (by norm_num)
    (by rw [abs_of_pos (by norm_num)]; norm_num)
    (by rw [abs_of_pos (by norm_num)]; norm_num) (by norm_num) (by norm_num)]
  norm_num

/-- Bounds of `alpha * (1 - e ^ 2) / d` for a denominator `d` between `1 - e`
and `1 + e`. -/
theorem quotient_bounds (alpha e d : ℝ) (halpha : 0 < alpha) (he0 : 0 ≤ e) (he1 : e < 1)
    (hd1 : 1 - e ≤ d) (hd2 : d ≤ 1 + e) :
    alpha * (1 - e) ≤ alpha * (1 - e ^ 2) / d ∧ alpha * (1 - e ^ 2) / d ≤ alpha * (1 + e) := by
  have hd : 0 < d := by linarith
  have h1 : 0 ≤ alpha * (1 - e) := by nlinarith
  have h2 : 0 ≤ alpha * (1 + e) := by nlinarith
  constructor
  · rw [le_div_iff₀ hd]
    nlinarith
  · rw [div_le_iff₀ hd]
    nlinarith

/-! ## The true anomaly (claim C2) -/

/-- Claim C2 as stated fails on the `float` field: from `theta = 262144`
(a binary32 value, `2 ^ 18`) a call of `update` leaves `theta` at 262144,
not at `262144 + 0.01`, and so does every further call: `theta` does not keep
increasing. -/
theorem C2_counterexample :
    (updates (ieeeArith (fun _ => 1) (fun _ => 0) (fun _ => 0)) 1 stalled_state).theta
        ≠ stalled_state.theta + 1 / 100 ∧
      ∀ n : ℕ,
        (updates (ieeeArith (fun _ => 1) (fun _ => 0) (fun _ => 0)) n stalled_state).theta
          = stalled_state.theta := by
  have hs : stalled_state.theta = 262144 := rfl
  constructor
  · rw [ieee_updates_theta_stall _ _ _ 1 _ hs, hs]
    norm_num
  · intro n
    rw [ieee_updates_theta_stall _ _ _ n _ hs, hs]

/-- Claim C2, amended: with the arithmetic read over the reals, for every
starting state and every `N` the true anomaly after `N` calls of `update` is
`theta0 + 0.01 * N`; each call adds exactly 0.01, and `theta` exceeds every
bound.  In every arithmetic a call does nothing to `theta` but the rounded
addition of 0.01: it is never wrapped into `[0, 2π)`. -/
theorem C2_theta (atof : String → ℝ) (s : State ℝ) (N : ℕ) :
    (updates (exactArith Real.cos Real.sin atof) N s).theta = s.theta + 0.01 * N ∧
      (update (exactArith Real.cos Real.sin atof)
          (updates (exactArith Real.cos Real.sin atof) N s)).theta
        = (updates (exactArith Real.cos Real.sin atof) N s).theta + 0.01 ∧
      (∀ M : ℝ, ∃ k : ℕ, M < (updates (exactArith Real.cos Real.sin atof) k s).theta) ∧
      ∀ (G : Type) [Field G] [DecidableEq G] (B : Arith G) (t : State G) (m : ℕ),
        (updates B m t).theta
          = (fun x => B.toFloat (B.toDouble (x + B.toDouble (1 / 100))))^[m] t.theta := by
  refine ⟨?_, ?_, ?_, ?_⟩
  · rw [updates_theta_exact]
    ring
  · rw [update_theta]
    simp only [exactArith, id]
    norm_num
  · intro M
    obtain ⟨k, hk⟩ := exists_nat_gt ((M - s.theta) * 100)
    refine ⟨k, ?_⟩
    rw [updates_theta_exact]
    linarith
  · intro G _ _ B t m
    exact updates_theta_iterate B m t

/-! ## The orbit equation (claims C1, C3, C9, C10) -/

/-- The orbit equation with the arithmetic read over the reals: with both
SDL calls of `start_up` succeeding, `start_up` stores `p = alpha * (1 - e ^ 2)`, the
following call of `update` advances `theta` by 0.01 to `theta'`, and when
`e * cos theta' ≠ -1` the stored radius is `p / (1 + e * cos theta')`.  For
`e = 0.5` and `alpha = 200` this gives `p = 150`, radius 100 at `theta' = 0`
and radius 300 at `theta' = π`. -/
theorem radius_exact (atof : String → ℝ) (sdl : SdlInit) (s : State ℝ)
    (hinit : 0 ≤ sdl.init) (hcreate : 0 ≤ sdl.create) :
    ∃ s1 : State ℝ,
      start_up (exactArith Real.cos Real.sin atof) sdl s = .ok s1 ∧
      s1.p = s.alpha * (1 - s.e ^ 2) ∧
      (update (exactArith Real.cos Real.sin atof) s1).theta = s.theta + 0.01 ∧
      (s.e * Real.cos (update (exactArith Real.cos Real.sin atof) s1).theta ≠ -1 →
        (update (exactArith Real.cos Real.sin atof) s1).r
          = s1.p / (1 + s.e * Real.cos (update (exactArith Real.cos Real.sin atof) s1).theta)) ∧
      (s.e = 0.5 → s.alpha = 200 →
        s1.p = 150 ∧
        ((update (exactArith Real.cos Real.sin atof) s1).theta = 0 →
          (update (exactArith Real.cos Real.sin atof) s1).r = 100) ∧
        ((update (exactArith Real.cos Real.sin atof) s1).theta = Real.pi →
          (update (exactArith Real.cos Real.sin atof) s1).r = 300)) := by
  refine ⟨_, start_up_ok _ sdl s hinit hcreate, ?_, ?_, ?_, ?_⟩
  · simp only [exactArith, id]
    ring
  · rw [update_theta]
    simp only [exactArith, id]
    norm_num
  · intro hne
    rw [update_r_exact]
    have hd : 1 + s.e * Real.cos (update (exactArith Real.cos Real.sin atof)
        { s with
          window := true
          renderer := true
          focus_x := s.window_width >>> 1
          focus_y := s.window_height >>> 1
          p := (exactArith Real.cos Real.sin atof).toFloat
            (s.alpha * (exactArith Real.cos Real.sin atof).toFloat
              (1 - (exactArith Real.cos Real.sin atof).toFloat (s.e * s.e))) }).theta ≠ 0 := by
      intro h0
      apply hne
      linarith
    unfold NON_ZERO
    rw [if_neg hd]
  · intro he ha
    refine ⟨?_, ?_, ?_⟩
    · simp only [exactArith, id, he, ha]
      norm_num
    · intro ht
      rw [update_r_exact, ht, Real.cos_zero]
      simp only [exactArith, id, he, ha, NON_ZERO]
      norm_num
    · intro ht
      rw [update_r_exact, ht, Real.cos_pi]
      simp only [exactArith, id, he, ha, NON_ZERO]
      norm_num

/-- In IEEE arithmetic, with a library accurate at the binary32 value nearest
to 0.01, the orbit `e = 0.1f`, `alpha = 100` from `theta = 0`: `start_up`
stores `p = 99`, which is not `alpha * (1 - e ^ 2)`; the first `update` stores
a `theta` that is not `0.01` and, with `e * cos theta' ≠ -1`, the radius
`5898267 / 65536`, which is not `p / (1 + e * cos theta')`. -/
theorem ieee_tenth_orbit (cos sin : ℚ → ℚ) (atof : String → ℚ)
    (h : LibmAccurate cos sin (5368709 / 536870912)) :
    ∃ s1 : State ℚ,
      start_up (ieeeArith cos sin atof) { init := 0, create := 0, error := "" } tenth_state
        = .ok s1 ∧
      s1.p = 99 ∧
      s1.p ≠ tenth_state.alpha * (1 - tenth_state.e ^ 2) ∧
      (update (ieeeArith cos sin atof) s1).theta = 5368709 / 536870912 ∧
      (update (ieeeArith cos sin atof) s1).theta ≠ tenth_state.theta + 1 / 100 ∧
      tenth_state.e * cos (update (ieeeArith cos sin atof) s1).theta ≠ -1 ∧
      (update (ieeeArith cos sin atof) s1).r = 5898267 / 65536 ∧
      (update (ieeeArith cos sin atof) s1).r
        ≠ s1.p / (1 + tenth_state.e * cos (update (ieeeArith cos sin atof) s1).theta) := by
  obtain ⟨hclo, hchi, _, _⟩ := libm_bounds cos sin h
  refine ⟨_, start_up_ok _ _ tenth_state (by decide) (by decide), ?_⟩
  generalize hs1 : ({ tenth_state with
      window := true
      renderer := true
      focus_x := tenth_state.window_width >>> 1
      focus_y := tenth_state.window_height >>> 1
      p := (ieeeArith cos sin atof).toFloat
        (tenth_state.alpha * (ieeeArith cos sin atof).toFloat
          (1 - (ieeeArith cos sin atof).toFloat (tenth_state.e * tenth_state.e))) } :
      State ℚ) = s1
  have hp : s1.p = 99 := by
    rw [← hs1]
    exact ieee_p_tenth
  have he : s1.e = 13421773 / 134217728 := by rw [← hs1]; rfl
  have ht0 : s1.theta = 0 := by rw [← hs1]; rfl
  have hth : (update (ieeeArith cos sin atof) s1).theta = 5368709 / 536870912 := by
    rw [update_theta, ht0]
    exact ieee_theta_first
  have hea : tenth_state.e = 13421773 / 134217728 := rfl
  have haa : tenth_state.alpha = 100 := rfl
  have hta : tenth_state.theta = 0 := rfl
  obtain ⟨hd, hr1, hr2⟩ := ieee_tenth_r (cos (5368709 / 536870912)) hclo hchi
  have hr : (update (ieeeArith cos sin atof) s1).r = 5898267 / 65536 := by
    show roundBinary 24 (-126) (roundBinary 53 (-1022)
      (s1.p / NON_ZERO (ieeeArith cos sin atof) (roundBinary 53 (-1022)
        (1 + roundBinary 53 (-1022)
          (s1.e * cos (update (ieeeArith cos sin atof) s1).theta))))) = _
    rw [hp, he, hth]
    unfold NON_ZERO
    rw [if_neg (ne_of_gt hd)]
    exact hr1
  refine ⟨hp, ?_, hth, ?_, ?_, hr, ?_⟩
  · rw [hp, hea, haa]
    norm_num
  · rw [hth, hta]
    norm_num
  · rw [hth, hea]
    intro hneg
    nlinarith
  · rw [hr, hp, hth, hea]
    exact ne_of_gt hr2

/-- Claim C1 as stated fails on the `float` fields: for `e = 0.1f`,
`alpha = 100` and `theta = 0` (the record after `sim -e 0.1 -a 100`),
`start_up` stores `p = 99` and not `alpha * (1 - e ^ 2)`, the advanced `theta'`
is not `theta + 0.01`, and although `e * cos theta' ≠ -1` the stored radius
`5898267 / 65536` is not `p / (1 + e * cos theta')`.  The library values are
`cos_sample` and `sin_sample`; `ieee_tenth_orbit` shows the same for every
library accurate to `1 / 10 ^ 9`. -/
theorem C1_counterexample :
    ∃ s1 : State ℚ,
      start_up (ieeeArith cos_sample sin_sample atof_sample)
          { init := 0, create := 0, error := "" } tenth_state = .ok s1 ∧
      s1.p = 99 ∧
      s1.p ≠ tenth_state.alpha * (1 - tenth_state.e ^ 2) ∧
      (update (ieeeArith cos_sample sin_sample atof_sample) s1).theta
        = 5368709 / 536870912 ∧
      (update (ieeeArith cos_sample sin_sample atof_sample) s1).theta
        ≠ tenth_state.theta + 1 / 100 ∧
      tenth_state.e
          * cos_sample (update (ieeeArith cos_sample sin_sample atof_sample) s1).theta ≠ -1 ∧
      (update (ieeeArith cos_sample sin_sample atof_sample) s1).r = 5898267 / 65536 ∧
      (update (ieeeArith cos_sample sin_sample atof_sample) s1).r
        ≠ s1.p / (1 + tenth_state.e
            * cos_sample (update (ieeeArith cos_sample sin_sample atof_sample) s1).theta) :=
  ieee_tenth_orbit cos_sample sin_sample atof_sample sample_accurate

/-- Claim C1, amended: with the arithmetic read over the reals and both SDL
calls of `start_up` succeeding, `start_up` stores `p = alpha * (1 - e ^ 2)`,
the following call of `update` advances `theta` by 0.01 to `theta'`, and when
`e * cos theta' ≠ -1` the stored radius is `p / (1 + e * cos theta')`.  For
`e = 0.5` and `alpha = 200` this gives `p = 150` (in IEEE arithmetic too),
radius 100 at `theta' = 0` and radius 300 at `theta' = π`. -/
theorem C1_radius (atof : String → ℝ) (sdl : SdlInit) (s : State ℝ)
    (hinit : 0 ≤ sdl.init) (hcreate : 0 ≤ sdl.create) :
    (∃ s1 : State ℝ,
      start_up (exactArith Real.cos Real.sin atof) sdl s = .ok s1 ∧
      s1.p = s.alpha * (1 - s.e ^ 2) ∧
      (update (exactArith Real.cos Real.sin atof) s1).theta = s.theta + 0.01 ∧
      (s.e * Real.cos (update (exactArith Real.cos Real.sin atof) s1).theta ≠ -1 →
        (update (exactArith Real.cos Real.sin atof) s1).r
          = s1.p / (1 + s.e * Real.cos (update (exactArith Real.cos Real.sin atof) s1).theta)) ∧
      (s.e = 0.5 → s.alpha = 200 →
        s1.p = 150 ∧
        ((update (exactArith Real.cos Real.sin atof) s1).theta = 0 →
          (update (exactArith Real.cos Real.sin atof) s1).r = 100) ∧
        ((update (exactArith Real.cos Real.sin atof) s1).theta = Real.pi →
          (update (exactArith Real.cos Real.sin atof) s1).r = 300))) ∧
    ∀ (cosq sinq : ℚ → ℚ) (atofq : String → ℚ) (t : State ℚ),
      t.e = 1 / 2 → t.alpha = 200 →
      ∃ t1 : State ℚ, start_up (ieeeArith cosq sinq atofq) sdl t = .ok t1 ∧ t1.p = 150 := by
  refine ⟨radius_exact atof sdl s hinit hcreate, ?_⟩
  intro cosq sinq atofq t he ha
  refine ⟨_, start_up_ok _ sdl t hinit hcreate, ?_⟩
  show roundBinary 24 (-126)
    (t.alpha * roundBinary 24 (-126) (1 - roundBinary 24 (-126) (t.e * t.e))) = 150
  rw [he, ha]
  exact ieee_p_half

/-- Witness of `C1_radius`: eccentricity 0.5, semi-major axis 200 and a true
anomaly that the first call of `update` advances to 0; the radius is 100. -/
theorem C1_radius_witness :
    ∃ s1 : State ℝ,
      start_up (exactArith Real.cos Real.sin (fun _ => 0)) { init := 0, create := 0, error := "" }
          { init_state ["sim"] with e := 0.5, alpha := 200, theta := -0.01 } = .ok s1 ∧
        s1.p = 150 ∧ (update (exactArith Real.cos Real.sin (fun _ => 0)) s1).r = 100 := by
  obtain ⟨s1, h1, _, ht, _, hscen⟩ :=
    (C1_radius (fun _ => 0) { init := 0, create := 0, error := "" }
      { init_state ["sim"] with e := 0.5, alpha := 200, theta := -0.01 }
      (by decide) (by decide)).1
  obtain ⟨hp, hr0, _⟩ := hscen rfl rfl
  refine ⟨s1, h1, hp, hr0 ?_⟩
  rw [ht]
  norm_num

/-- Claim C3: with the arithmetic read over the reals, after every call of
`update` the position is the polar-to-cartesian conversion of the stored
`r` and `theta` about the focus, `x = focus_x + r * cos theta` and
`y = focus_y + r * sin theta`, hence
`(x - focus_x) ^ 2 + (y - focus_y) ^ 2 = r ^ 2`. -/
theorem C3_position (atof : String → ℝ) (s : State ℝ) :
    (update (exactArith Real.cos Real.sin atof) s).x
        = ((update (exactArith Real.cos Real.sin atof) s).focus_x : ℝ)
          + (update (exactArith Real.cos Real.sin atof) s).r
            * Real.cos (update (exactArith Real.cos Real.sin atof) s).theta ∧
      (update (exactArith Real.cos Real.sin atof) s).y
        = ((update (exactArith Real.cos Real.sin atof) s).focus_y : ℝ)
          + (update (exactArith Real.cos Real.sin atof) s).r
            * Real.sin (update (exactArith Real.cos Real.sin atof) s).theta ∧
      ((update (exactArith Real.cos Real.sin atof) s).x
            - ((update (exactArith Real.cos Real.sin atof) s).focus_x : ℝ)) ^ 2
          + ((update (exactArith Real.cos Real.sin atof) s).y
            - ((update (exactArith Real.cos Real.sin atof) s).focus_y : ℝ)) ^ 2
        = (update (exactArith Real.cos Real.sin atof) s).r ^ 2 :=
  ⟨update_x_exact _ _ _ s, update_y_exact _ _ _ s, update_on_circle atof s⟩

/-- Claim C9: the divisor `update` uses for the radius is
`NON_ZERO(1 + e * cos theta)`, which is never zero: it is
`1 + e * cos theta` when that value is nonzero and the substituted
`0.000001` when that value is 0 (in IEEE arithmetic too the substituted
`float` literal is nonzero); and for `0 ≤ e < 1` and every `theta` the
value `1 + e * cos theta` is nonzero, so nothing is substituted. -/
theorem C9_divisor (atof : String → ℝ) (s : State ℝ) :
    (update (exactArith Real.cos Real.sin atof) s).r
        = s.p / NON_ZERO (exactArith Real.cos Real.sin atof)
            (1 + s.e * Real.cos (update (exactArith Real.cos Real.sin atof) s).theta) ∧
      (∀ x : ℝ,
        NON_ZERO (exactArith Real.cos Real.sin atof) x ≠ 0 ∧
        (x ≠ 0 → NON_ZERO (exactArith Real.cos Real.sin atof) x = x) ∧
        (x = 0 → NON_ZERO (exactArith Real.cos Real.sin atof) x = 0.000001)) ∧
      (∀ e theta : ℝ, 0 ≤ e → e < 1 →
        1 + e * Real.cos theta ≠ 0 ∧
        NON_ZERO (exactArith Real.cos Real.sin atof) (1 + e * Real.cos theta)
          = 1 + e * Real.cos theta) ∧
      ∀ (cosq sinq : ℚ → ℚ) (atofq : String → ℚ) (x : ℚ),
        NON_ZERO (ieeeArith cosq sinq atofq) x ≠ 0 := by
  refine ⟨update_r_exact _ _ _ s, ?_, ?_, ?_⟩
  · intro x
    unfold NON_ZERO
    by_cases hx : x = 0
    · simp only [hx, if_true, exactArith, id]
      norm_num
    · rw [if_neg hx]
      exact ⟨hx, fun _ => rfl, fun h => absurd h hx⟩
  · intro e theta h0 h1
    have hpos := (denominator_bounds e theta h0 h1).2.2
    have hne : 1 + e * Real.cos theta ≠ 0 := ne_of_gt hpos
    refine ⟨hne, ?_⟩
    unfold NON_ZERO
    rw [if_neg hne]
  · intro cosq sinq atofq x
    unfold NON_ZERO
    by_cases hx : x = 0
    · simp only [hx, if_true, ieeeArith]
      rw [toFloat_epsilon]
      norm_num
    · simp only [hx, if_false]
      exact hx

/-- Claim C10: with the arithmetic read over the reals, for `alpha > 0`,
`0 ≤ e < 1`, every starting `theta` and both SDL calls succeeding, after
`start_up` and `N ≥ 1` calls of `update` the radius satisfies
`alpha * (1 - e) ≤ r ≤ alpha * (1 + e)`, it is positive, and the position
lies in the disc of radius `alpha * (1 + e)` about the focus. -/
theorem C10_radius_bounds (atof : String → ℝ) (sdl : SdlInit) (s : State ℝ) (N : ℕ)
    (hinit : 0 ≤ sdl.init) (hcreate : 0 ≤ sdl.create)
    (halpha : 0 < s.alpha) (he0 : 0 ≤ s.e) (he1 : s.e < 1) (hN : 1 ≤ N) :
    ∃ s1 : State ℝ,
      start_up (exactArith Real.cos Real.sin atof) sdl s = .ok s1 ∧
      s.alpha * (1 - s.e) ≤ (updates (exactArith Real.cos Real.sin atof) N s1).r ∧
      (updates (exactArith Real.cos Real.sin atof) N s1).r ≤ s.alpha * (1 + s.e) ∧
      0 < (updates (exactArith Real.cos Real.sin atof) N s1).r ∧
      ((updates (exactArith Real.cos Real.sin atof) N s1).x - (s1.focus_x : ℝ)) ^ 2
          + ((updates (exactArith Real.cos Real.sin atof) N s1).y - (s1.focus_y : ℝ)) ^ 2
        ≤ (s.alpha * (1 + s.e)) ^ 2 := by
  obtain ⟨k, rfl⟩ : ∃ k, N = k + 1 := ⟨N - 1, by omega⟩
  refine ⟨_, start_up_ok _ sdl s hinit hcreate, ?_⟩
  rw [updates_succ_last]
  generalize hs1 : ({ s with
      window := true
      renderer := true
      focus_x := s.window_width >>> 1
      focus_y := s.window_height >>> 1
      p := (exactArith Real.cos Real.sin atof).toFloat
        (s.alpha * (exactArith Real.cos Real.sin atof).toFloat
          (1 - (exactArith Real.cos Real.sin atof).toFloat (s.e * s.e))) } : State ℝ) = s1
  have hp1 : s1.p = s.alpha * (1 - s.e ^ 2) := by
    rw [← hs1]
    simp only [exactArith, id]
    ring
  have he : s1.e = s.e := by rw [← hs1]
  obtain ⟨hp, hee, _, hfx, hfy, _⟩ := updates_frame (exactArith Real.cos Real.sin atof) k s1
  generalize updates (exactArith Real.cos Real.sin atof) k s1 = t at hp hee hfx hfy ⊢
  have hcirc := update_on_circle atof t
  have hr := update_r_exact Real.cos Real.sin atof t
  obtain ⟨hd1, hd2, hd0⟩ :=
    denominator_bounds s.e (update (exactArith Real.cos Real.sin atof) t).theta he0 he1
  have hnz : NON_ZERO (exactArith Real.cos Real.sin atof)
      (1 + t.e * Real.cos (update (exactArith Real.cos Real.sin atof) t).theta)
      = 1 + s.e * Real.cos (update (exactArith Real.cos Real.sin atof) t).theta := by
    rw [hee, he]
    unfold NON_ZERO
    rw [if_neg (ne_of_gt hd0)]
  rw [hnz, hp, hp1] at hr
  obtain ⟨hb1, hb2⟩ := quotient_bounds s.alpha s.e _ halpha he0 he1 hd1 hd2
  rw [← hr] at hb1 hb2
  have hlow : 0 < s.alpha * (1 - s.e) := mul_pos halpha (by linarith)
  have hrpos : 0 < (update (exactArith Real.cos Real.sin atof) t).r := lt_of_lt_of_le hlow hb1
  refine ⟨hb1, hb2, hrpos, ?_⟩
  rw [← hfx, ← hfy, hcirc]
  exact pow_le_pow_left₀ (le_of_lt hrpos) hb2 2

/-- Witness of `C10_radius_bounds`: eccentricity 0.5 and semi-major axis 200
from `theta = 0`, three calls of `update`. -/
theorem C10_radius_bounds_witness :
    ∃ s1 : State ℝ,
      start_up (exactArith Real.cos Real.sin (fun _ => 0)) { init := 0, create := 0, error := "" }
          { init_state ["sim"] with e := 0.5, alpha := 200 } = .ok s1 ∧
        100 ≤ (updates (exactArith Real.cos Real.sin (fun _ => 0)) 3 s1).r ∧
        (updates (exactArith Real.cos Real.sin (fun _ => 0)) 3 s1).r ≤ 300 := by
  obtain ⟨s1, h1, hlo, hhi, _, _⟩ :=
    C10_radius_bounds (fun _ => 0) { init := 0, create := 0, error := "" }
      { init_state ["sim"] with e := 0.5, alpha := 200 } 3
      (by decide) (by decide) (by norm_num) (by norm_num) (by norm_num) (by decide)
  refine ⟨s1, h1, ?_, ?_⟩
  · have e1 : (100 : ℝ) = 200 * (1 - 0.5) := by norm_num
    rw [e1]
    exact hlo
  · have e2 : (300 : ℝ) = 200 * (1 + 0.5) := by norm_num
    rw [e2]
    exact hhi

/-! ## Frame pacing (claim C8) -/

/-- Claim C8 as stated fails: with `start = 0` and `now = 2147483665`
(an iteration of `2 ^ 31 + 17` ms) the elapsed time is far above the budget
of 16 ms, so the claimed sleep `max(0, 16 - elapsed)` is 0, but the
difference `16 - elapsed` wraps to a positive `Sint32` and `SDL_Delay` is
called with 2147483647. -/
theorem C8_counterexample :
    to_uint32 ((2147483665 : ℕ) - (0 : ℕ)) = 2147483665 ∧
      max 0 ((16 : Int) - to_uint32 ((2147483665 : ℕ) - (0 : ℕ))) = 0 ∧
      frame_sleep 0 2147483665 = 2147483647 := by
  decide

/-- Claim C8, amended: the frame budget `MS_PER_FRAME` is 16, and for
every pair of readings `start`, `now` of the tick counter whose difference
`elapsed = (now - start) mod 2 ^ 32` is at most `2 ^ 31 + 16`, the argument of
`SDL_Delay` is `max(0, 16 - elapsed)`; in particular it is 0 whenever
`16 ≤ elapsed ≤ 2 ^ 31 + 16`. -/
theorem C8_frame_sleep (start now : ℕ)
    (hel : to_uint32 ((now : Int) - (start : Int)) ≤ 2 ^ 31 + 16) :
    MS_PER_FRAME = 16 ∧
      frame_sleep start now = max 0 (16 - to_uint32 ((now : Int) - (start : Int))) ∧
      (16 ≤ to_uint32 ((now : Int) - (start : Int)) → frame_sleep start now = 0) := by
  have hms : MS_PER_FRAME = 16 := by decide
  unfold frame_sleep frame_delay MAX to_sint32
  rw [hms]
  unfold to_uint32 at hel ⊢
  have h0 : 0 ≤ ((now : Int) - (start : Int)) % 2 ^ 32 :=
    Int.emod_nonneg _ (by norm_num)
  generalize ((now : Int) - (start : Int)) % 2 ^ 32 = el at hel h0 ⊢
  norm_num at hel ⊢
  rcases le_or_lt el 16 with hle | hgt
  · have e1 : (16 - el) % 4294967296 = 16 - el :=
      Int.emod_eq_of_lt (by omega) (by omega)
    rw [e1, max_def]
    split_ifs <;> omega
  · have e1 : (16 - el) % 4294967296 = 16 - el + 4294967296 := by
      rw [← Int.add_emod_self]
      exact Int.emod_eq_of_lt (by omega) (by omega)
    rw [e1, max_def]
    split_ifs <;> omega

/-- Witness of `C8_frame_sleep`: an iteration that took 5 ms across the
wrap-around of the tick counter sleeps 11 ms, the rest of the budget. -/
theorem C8_frame_sleep_witness :
    frame_sleep 4294967294 3 = max 0 (16 - to_uint32 ((3 : ℕ) - (4294967294 : ℕ))) ∧
      to_uint32 ((3 : ℕ) - (4294967294 : ℕ)) = 5 :=
  ⟨(C8_frame_sleep 4294967294 3 (by decide)).2.1, by decide⟩

/-! ## Unfolding the loop of `parse_args` -/

/-- The loop is over when the index has reached `argc`. -/
theorem parse_loop_done {F : Type} (A : Arith F) (argc : Nat) (progname : String) (i : Nat)
    (s : State F) (h : ¬ i < argc) : parse_loop A argc progname i s = .ok s := by
  rw [parse_loop, dif_neg h]

/-- An iteration that exits the process ends the loop with that exit. -/
theorem parse_loop_exit {F : Type} (A : Arith F) (argc : Nat) (progname : String) (i : Nat)
    (s : State F) (x : Exit) (h : i < argc)
    (hstep : parse_token A argc progname i s = .error x) :
    parse_loop A argc progname i s = .error x := by
  rw [parse_loop, dif_pos h]
  split
  · rename_i y hy
    rw [hstep] at hy
    injection hy with hy
    rw [hy]
  · rename_i j t hy
    rw [hstep] at hy
    cases hy

/-- An iteration that returns continues the loop from the next index. -/
theorem parse_loop_step {F : Type} (A : Arith F) (argc : Nat) (progname : String) (i : Nat)
    (s : State F) (j : Nat) (t : State F) (h : i < argc)
    (hstep : parse_token A argc progname i s = .ok (j, t)) :
    parse_loop A argc progname i s = parse_loop A argc progname j t := by
  rw [parse_loop, dif_pos h]
  split
  · rename_i y hy
    rw [hstep] at hy
    cases hy
  · rename_i j2 t2 hy
    rw [hstep] at hy
    injection hy with hy
    injection hy with h1 h2
    rw [h1, h2]

/-- An iteration on a token that does not begin with `-` appends the token to
the residual arguments and moves to the next index. -/
theorem parse_token_nonflag {F : Type} (A : Arith F) (argc : Nat) (progname : String)
    (i : Nat) (s : State F) (h : (s.args.getD i "").data.head? ≠ some '-') :
    parse_token A argc progname i s
      = .ok (i + 1, { s with
          args := s.args.set s.numargs (s.args.getD i "")
          numargs := s.numargs + 1 }) := by
  unfold parse_token
  simp only
  rw [if_neg h]

/-- An iteration on `-e` followed by another token. -/
theorem parse_token_e {F : Type} (A : Arith F) (argc : Nat) (progname : String)
    (i : Nat) (s : State F) (h : s.args.getD i "" = "-e") (hnext : i + 1 < argc) :
    parse_token A argc progname i s
      = .ok (i + 2, { s with e := A.toFloat (A.atof (s.args.getD (i + 1) "")) }) := by
  unfold parse_token
  simp only [h]
  rw [if_pos (by decide), if_neg (by decide), if_neg (by decide), if_pos trivial,
    if_neg (by omega)]

/-- An iteration on `-e` as the last token. -/
theorem parse_token_e_last {F : Type} (A : Arith F) (argc : Nat) (progname : String)
    (i : Nat) (s : State F) (h : s.args.getD i "" = "-e") (hnext : argc ≤ i + 1) :
    parse_token A argc progname i s
      = .error (die "-e flag expects a numerical argument") := by
  unfold parse_token
  simp only [h]
  rw [if_pos (by decide), if_neg (by decide), if_neg (by decide), if_pos trivial,
    if_pos (by omega)]

/-- An iteration on `-a` followed by another token. -/
theorem parse_token_a {F : Type} (A : Arith F) (argc : Nat) (progname : String)
    (i : Nat) (s : State F) (h : s.args.getD i "" = "-a") (hnext : i + 1 < argc) :
    parse_token A argc progname i s
      = .ok (i + 2, { s with alpha := A.toFloat (A.atof (s.args.getD (i + 1) "")) }) := by
  unfold parse_token
  simp only [h]
  rw [if_pos (by decide), if_neg (by decide), if_neg (by decide), if_neg (by decide),
    if_pos trivial, if_neg (by omega)]

/-- An iteration on `-a` as the last token. -/
theorem parse_token_a_last {F : Type} (A : Arith F) (argc : Nat) (progname : String)
    (i : Nat) (s : State F) (h : s.args.getD i "" = "-a") (hnext : argc ≤ i + 1) :
    parse_token A argc progname i s
      = .error (die "-a flag expects a numerical argument") := by
  unfold parse_token
  simp only [h]
  rw [if_pos (by decide), if_neg (by decide), if_neg (by decide), if_neg (by decide),
    if_pos trivial, if_pos (by omega)]

/-- An iteration on a token that begins with `-` and is none of the four
flags. -/
theorem parse_token_unknown {F : Type} (A : Arith F) (argc : Nat) (progname : String)
    (i : Nat) (s : State F) (hflag : (s.args.getD i "").data.head? = some '-')
    (hh : s.args.getD i "" ≠ "-h") (hf : s.args.getD i "" ≠ "-f")
    (he : s.args.getD i "" ≠ "-e") (ha : s.args.getD i "" ≠ "-a") :
    parse_token A argc progname i s
      = .error (die ("Unknown flag \"" ++ s.args.getD i "" ++ "\"")) := by
  unfold parse_token
  simp only
  rw [if_pos hflag, if_neg hh, if_neg hf, if_neg he, if_neg ha]

/-- Every iteration moves the index forward. -/
theorem parse_token_lt {F : Type} (A : Arith F) (argc : Nat) (progname : String) (i : Nat)
    (s : State F) (j : Nat) (t : State F)
    (h : parse_token A argc progname i s = .ok (j, t)) : i < j := by
  unfold parse_token at h
  simp only at h
  split_ifs at h <;> simp only [Except.ok.injEq, Prod.mk.injEq, reduceCtorEq] at h <;> omega

/-- An iteration keeps the invariant of the scan. -/
theorem parse_token_inv {F : Type} (A : Arith F) (argc : Nat) (progname : String)
    (argv : List String) (i : Nat) (s : State F) (j : Nat) (t : State F)
    (hinv : ScanInv argv i s) (h : parse_token A argc progname i s = .ok (j, t)) :
    ScanInv argv j t := by
  obtain ⟨hlen, hnum, hagree⟩ := hinv
  unfold parse_token at h
  simp only at h
  split_ifs at h <;> simp only [Except.ok.injEq, Prod.mk.injEq, reduceCtorEq] at h
  · obtain ⟨rfl, rfl⟩ := h
    exact ⟨hlen, by show s.numargs < i + 1; omega, fun k hk => hagree k (by omega)⟩
  · obtain ⟨rfl, rfl⟩ := h
    exact ⟨hlen, by show s.numargs < i + 2; omega, fun k hk => hagree k (by omega)⟩
  · obtain ⟨rfl, rfl⟩ := h
    exact ⟨hlen, by show s.numargs < i + 2; omega, fun k hk => hagree k (by omega)⟩
  · obtain ⟨rfl, rfl⟩ := h
    refine ⟨?_, by show s.numargs + 1 < i + 1; omega, ?_⟩
    · show (s.args.set s.numargs (s.args.getD i "")).length = argv.length
      rw [List.length_set]
      exact hlen
    · intro k hk
      show (s.args.set s.numargs (s.args.getD i "")).getD k "" = argv.getD k ""
      rw [← hagree k (by omega)]
      simp only [List.getD_eq_getElem?_getD]
      rw [List.getElem?_set_ne (by omega)]

/-- The invariant holds when the loop is entered. -/
theorem init_inv {F : Type} [Field F] (argv : List String) :
    ScanInv argv 1 (init_state argv : State F) :=
  ⟨rfl, Nat.zero_lt_one, fun _ _ => rfl⟩

/-- The invariant holds in every configuration the scan reaches. -/
theorem scan_after_inv {F : Type} (A : Arith F) (argc : Nat) (progname : String)
    (argv : List String) (n : Nat) (i0 : Nat) (s0 : State F) (i : Nat) (s : State F)
    (hinv : ScanInv argv i0 s0)
    (h : scan_after A argc progname n (i0, s0) = some (i, s)) : ScanInv argv i s := by
  induction n generalizing i0 s0 with
  | zero =>
    simp only [scan_after, Option.some.injEq, Prod.mk.injEq] at h
    obtain ⟨rfl, rfl⟩ := h
    exact hinv
  | succ k ih =>
    simp only [scan_after] at h
    split_ifs at h with hlt
    cases hstep : parse_token A argc progname i0 s0 with
    | error x => rw [hstep] at h; cases h
    | ok c =>
      obtain ⟨j, t⟩ := c
      rw [hstep] at h
      exact ih j t (parse_token_inv A argc progname argv i0 s0 j t hinv hstep) h

/-- The loop from a configuration the scan reaches gives the result of the
loop from the start. -/
theorem scan_after_loop {F : Type} (A : Arith F) (argc : Nat) (progname : String)
    (n : Nat) (i0 : Nat) (s0 : State F) (i : Nat) (s : State F)
    (h : scan_after A argc progname n (i0, s0) = some (i, s)) :
    parse_loop A argc progname i0 s0 = parse_loop A argc progname i s := by
  induction n generalizing i0 s0 with
  | zero =>
    simp only [scan_after, Option.some.injEq, Prod.mk.injEq] at h
    obtain ⟨rfl, rfl⟩ := h
    rfl
  | succ k ih =>
    simp only [scan_after] at h
    split_ifs at h with hlt
    cases hstep : parse_token A argc progname i0 s0 with
    | error x => rw [hstep] at h; cases h
    | ok c =>
      obtain ⟨j, t⟩ := c
      rw [hstep] at h
      rw [parse_loop_step A argc progname i0 s0 j t hlt hstep]
      exact ih j t h

/-- The scan never moves the index backwards. -/
theorem scan_after_index_le {F : Type} (A : Arith F) (argc : Nat) (progname : String)
    (n : Nat) (i0 : Nat) (s0 : State F) (i : Nat) (s : State F)
    (h : scan_after A argc progname n (i0, s0) = some (i, s)) : i0 ≤ i := by
  induction n generalizing i0 s0 with
  | zero =>
    simp only [scan_after, Option.some.injEq, Prod.mk.injEq] at h
    omega
  | succ k ih =>
    simp only [scan_after] at h
    split_ifs at h with hlt
    cases hstep : parse_token A argc progname i0 s0 with
    | error x => rw [hstep] at h; cases h
    | ok c =>
      obtain ⟨j, t⟩ := c
      rw [hstep] at h
      have h1 := parse_token_lt A argc progname i0 s0 j t hstep
      have h2 := ih j t h
      omega

/-- On a tail of tokens none of which begins with `-` the loop returns, and
changes only the residual arguments. -/
theorem parse_loop_nonflag {F : Type} (A : Arith F) (argc : Nat) (progname : String)
    (k : Nat) (i : Nat) (s : State F) (hk : argc - i ≤ k) (hnum : s.numargs < i)
    (hflags : ∀ j, i ≤ j → j < argc → (s.args.getD j "").data.head? ≠ some '-') :
    ∃ t : State F, parse_loop A argc progname i s = .ok t ∧
      t.e = s.e ∧ t.alpha = s.alpha ∧ t.window_width = s.window_width ∧
      t.window_height = s.window_height ∧ t.window_flags = s.window_flags ∧
      t.theta = s.theta ∧ t.quit = s.quit := by
  induction k generalizing i s with
  | zero =>
    exact ⟨s, parse_loop_done A argc progname i s (by omega), rfl, rfl, rfl, rfl, rfl, rfl, rfl⟩
  | succ m ih =>
    by_cases hlt : i < argc
    · have hstep := parse_token_nonflag A argc progname i s (hflags i (le_refl i) hlt)
      rw [parse_loop_step A argc progname i s _ _ hlt hstep]
      apply ih (i + 1) _ (by omega) (by show s.numargs + 1 < i + 1; omega)
      intro j hj hjlt
      have h := hflags j (by omega) hjlt
      show ((s.args.set s.numargs (s.args.getD i "")).getD j "").data.head? ≠ some '-'
      simp only [List.getD_eq_getElem?_getD] at h ⊢
      rw [List.getElem?_set_ne (by omega)]
      exact h
    · exact ⟨s, parse_loop_done A argc progname i s hlt, rfl, rfl, rfl, rfl, rfl, rfl, rfl⟩

/-- The tokens after `argv[0]`, by index. -/
theorem tail_getD (argv : List String) (j : Nat) (h1 : 1 ≤ j) (h2 : j < argv.length) :
    argv.getD j "" ∈ argv.tail := by
  cases argv with
  | nil => simp at h2
  | cons a tl =>
    obtain ⟨m, rfl⟩ : ∃ m, j = m + 1 := ⟨j - 1, by omega⟩
    have hm : m < tl.length := by simpa using h2
    simp only [List.getD_eq_getElem?_getD, List.getElem?_cons_succ, List.tail_cons]
    rw [List.getElem?_eq_getElem hm]
    exact List.getElem_mem hm

/-! ## The default orbit (claim C6) -/

/-- The default orbit with the arithmetic read over the reals: for an
argument list in which no token after `argv[0]` begins with `-`, with both
SDL calls succeeding, `parse_args` returns `e = 0`, `alpha = 100` and the 800×600 window,
`start_up` returns `p = 100` and the focus `(400, 300)`, and after every
number `N ≥ 1` of calls of `update` the position lies at distance exactly 100
from `(400, 300)`. -/
theorem default_orbit_exact (atof : String → ℝ) (sdl : SdlInit) (argv : List String) (N : ℕ)
    (hflags : ∀ t ∈ argv.tail, t.data.head? ≠ some '-')
    (hinit : 0 ≤ sdl.init) (hcreate : 0 ≤ sdl.create) (hN : 1 ≤ N) :
    ∃ s0 s1 : State ℝ,
      parse_args (exactArith Real.cos Real.sin atof) argv = .ok s0 ∧
      start_up (exactArith Real.cos Real.sin atof) sdl s0 = .ok s1 ∧
      s0.e = 0 ∧ s0.alpha = 100 ∧ s0.window_width = 800 ∧ s0.window_height = 600 ∧
      s1.e = 0 ∧ s1.alpha = 100 ∧ s1.p = 100 ∧ s1.focus_x = 400 ∧ s1.focus_y = 300 ∧
      (updates (exactArith Real.cos Real.sin atof) N s1).r = 100 ∧
      ((updates (exactArith Real.cos Real.sin atof) N s1).x - 400) ^ 2
          + ((updates (exactArith Real.cos Real.sin atof) N s1).y - 300) ^ 2 = 100 ^ 2 := by
  obtain ⟨s0, hparse, he, ha, hw, hh, _, _, _⟩ :=
    parse_loop_nonflag (exactArith Real.cos Real.sin atof) argv.length (argv.getD 0 "")
      argv.length 1 (init_state argv) (by omega) Nat.zero_lt_one
      (fun j h1 h2 => hflags _ (tail_getD argv j h1 h2))
  have he0 : s0.e = 0 := he
  have ha0 : s0.alpha = 100 := ha
  have hw0 : s0.window_width = 800 := hw
  have hh0 : s0.window_height = 600 := hh
  obtain ⟨k, rfl⟩ : ∃ k, N = k + 1 := ⟨N - 1, by omega⟩
  refine ⟨s0, _, hparse, start_up_ok _ sdl s0 hinit hcreate, he0, ha0, hw0, hh0, he0, ha0,
    ?_, ?_, ?_, ?_⟩
  · show (exactArith Real.cos Real.sin atof).toFloat
      (s0.alpha * (exactArith Real.cos Real.sin atof).toFloat
        (1 - (exactArith Real.cos Real.sin atof).toFloat (s0.e * s0.e))) = 100
    simp only [exactArith, id, he0, ha0]
    norm_num
  · show s0.window_width >>> 1 = 400
    rw [hw0]
    decide
  · show s0.window_height >>> 1 = 300
    rw [hh0]
    decide
  · rw [updates_succ_last]
    generalize hs1 : ({ s0 with
        window := true
        renderer := true
        focus_x := s0.window_width >>> 1
        focus_y := s0.window_height >>> 1
        p := (exactArith Real.cos Real.sin atof).toFloat
          (s0.alpha * (exactArith Real.cos Real.sin atof).toFloat
            (1 - (exactArith Real.cos Real.sin atof).toFloat (s0.e * s0.e))) } : State ℝ) = s1
    have hp1 : s1.p = 100 := by
      rw [← hs1]
      simp only [exactArith, id, he0, ha0]
      norm_num
    have he1 : s1.e = 0 := by rw [← hs1]; exact he0
    have hfx1 : s1.focus_x = 400 := by
      rw [← hs1]
      show s0.window_width >>> 1 = 400
      rw [hw0]
      decide
    have hfy1 : s1.focus_y = 300 := by
      rw [← hs1]
      show s0.window_height >>> 1 = 300
      rw [hh0]
      decide
    obtain ⟨hp, hee, _, hfx, hfy, _⟩ := updates_frame (exactArith Real.cos Real.sin atof) k s1
    generalize updates (exactArith Real.cos Real.sin atof) k s1 = t at hp hee hfx hfy ⊢
    have hr : (update (exactArith Real.cos Real.sin atof) t).r = 100 := by
      rw [update_r_exact, hp, hp1, hee, he1]
      simp only [NON_ZERO]
      norm_num
    refine ⟨hr, ?_⟩
    have hcirc := update_on_circle atof t
    rw [hfx, hfy, hfx1, hfy1, hr] at hcirc
    norm_num at hcirc ⊢
    exact hcirc

/-- In IEEE arithmetic the default invocation gives `e = 0`, `alpha = 100`,
`p = 100`, the focus `(400, 300)` and, after every number `N ≥ 1` of calls of
`update`, the stored radius 100. -/
theorem default_orbit_ieee (cos sin : ℚ → ℚ) (atof : String → ℚ) (sdl : SdlInit)
    (argv : List String) (N : ℕ)
    (hflags : ∀ t ∈ argv.tail, t.data.head? ≠ some '-')
    (hinit : 0 ≤ sdl.init) (hcreate : 0 ≤ sdl.create) (hN : 1 ≤ N) :
    ∃ s0 s1 : State ℚ,
      parse_args (ieeeArith cos sin atof) argv = .ok s0 ∧
      start_up (ieeeArith cos sin atof) sdl s0 = .ok s1 ∧
      s0.e = 0 ∧ s0.alpha = 100 ∧ s0.window_width = 800 ∧ s0.window_height = 600 ∧
      s1.e = 0 ∧ s1.alpha = 100 ∧ s1.p = 100 ∧ s1.focus_x = 400 ∧ s1.focus_y = 300 ∧
      (updates (ieeeArith cos sin atof) N s1).r = 100 := by
  obtain ⟨s0, hparse, he, ha, hw, hh, _, _, _⟩ :=
    parse_loop_nonflag (ieeeArith cos sin atof) argv.length (argv.getD 0 "")
      argv.length 1 (init_state argv) (by omega) Nat.zero_lt_one
      (fun j h1 h2 => hflags _ (tail_getD argv j h1 h2))
  have he0 : s0.e = 0 := he
  have ha0 : s0.alpha = 100 := ha
  have hw0 : s0.window_width = 800 := hw
  have hh0 : s0.window_height = 600 := hh
  obtain ⟨k, rfl⟩ : ∃ k, N = k + 1 := ⟨N - 1, by omega⟩
  have hp1 : roundBinary 24 (-126)
      (s0.alpha * roundBinary 24 (-126) (1 - roundBinary 24 (-126) (s0.e * s0.e))) = 100 := by
    rw [he0, ha0]
    exact ieee_p_default
  refine ⟨s0, _, hparse, start_up_ok _ sdl s0 hinit hcreate, he0, ha0, hw0, hh0, he0, ha0,
    hp1, ?_, ?_, ?_⟩
  · show s0.window_width >>> 1 = 400
    rw [hw0]
    decide
  · show s0.window_height >>> 1 = 300
    rw [hh0]
    decide
  · rw [updates_succ_last]
    obtain ⟨hp, hee, _, _, _, _⟩ := updates_frame (ieeeArith cos sin atof) k
      ({ s0 with
        window := true
        renderer := true
        focus_x := s0.window_width >>> 1
        focus_y := s0.window_height >>> 1
        p := (ieeeArith cos sin atof).toFloat
          (s0.alpha * (ieeeArith cos sin atof).toFloat
            (1 - (ieeeArith cos sin atof).toFloat (s0.e * s0.e))) } : State ℚ)
    exact ieee_r_circular cos sin atof _ (hp.trans hp1) (hee.trans he0)

/-- In IEEE arithmetic, with a library accurate at the binary32 value nearest
to 0.01, the first position of the default orbit is
`(4095959 / 8192, 9863167 / 32768)`, which is not at distance 100 from
`(400, 300)`. -/
theorem ieee_default_off_circle (cos sin : ℚ → ℚ) (atof : String → ℚ)
    (h : LibmAccurate cos sin (5368709 / 536870912)) :
    ∃ s0 s1 : State ℚ,
      parse_args (ieeeArith cos sin atof) ["sim"] = .ok s0 ∧
      start_up (ieeeArith cos sin atof) { init := 0, create := 0, error := "" } s0 = .ok s1 ∧
      (updates (ieeeArith cos sin atof) 1 s1).x = 4095959 / 8192 ∧
      (updates (ieeeArith cos sin atof) 1 s1).y = 9863167 / 32768 ∧
      ((updates (ieeeArith cos sin atof) 1 s1).x - 400) ^ 2
          + ((updates (ieeeArith cos sin atof) 1 s1).y - 300) ^ 2 ≠ 100 ^ 2 := by
  obtain ⟨hclo, hchi, hslo, hshi⟩ := libm_bounds cos sin h
  obtain ⟨s0, s1, hparse, hstart, he0, _, _, _, he1, _, hp1, hfx, hfy, _⟩ :=
    default_orbit_ieee cos sin atof { init := 0, create := 0, error := "" } ["sim"] 1
      (by simp) (by decide) (by decide) (by decide)
  have hs0 : s0 = init_state ["sim"] := by
    have h0 : parse_args (ieeeArith cos sin atof) ["sim"] = .ok (init_state ["sim"]) :=
      parse_loop_done _ _ _ _ _ (by decide)
    rw [h0] at hparse
    injection hparse with h1
    exact h1.symm
  have ht1 : s1.theta = 0 := by
    have h1 := start_up_ok (ieeeArith cos sin atof) { init := 0, create := 0, error := "" } s0
      (by decide) (by decide)
    rw [h1] at hstart
    injection hstart with h2
    rw [← h2, hs0]
    rfl
  have hth : (update (ieeeArith cos sin atof) s1).theta = 5368709 / 536870912 := by
    rw [update_theta, ht1]
    exact ieee_theta_first
  have hr : (update (ieeeArith cos sin atof) s1).r = 100 :=
    ieee_r_circular cos sin atof s1 hp1 he1
  have hx : (update (ieeeArith cos sin atof) s1).x = 4095959 / 8192 := by
    show roundBinary 24 (-126) (roundBinary 53 (-1022)
      ((s1.focus_x : ℚ) + roundBinary 53 (-1022)
        ((update (ieeeArith cos sin atof) s1).r
          * cos (update (ieeeArith cos sin atof) s1).theta))) = _
    rw [hr, hth, hfx]
    push_cast
    exact ieee_default_x _ hclo hchi
  have hy : (update (ieeeArith cos sin atof) s1).y = 9863167 / 32768 := by
    show roundBinary 24 (-126) (roundBinary 53 (-1022)
      ((s1.focus_y : ℚ) + roundBinary 53 (-1022)
        ((update (ieeeArith cos sin atof) s1).r
          * sin (update (ieeeArith cos sin atof) s1).theta))) = _
    rw [hr, hth, hfy]
    push_cast
    exact ieee_default_y _ hslo hshi
  refine ⟨s0, s1, hparse, hstart, hx, hy, ?_⟩
  have hu : updates (ieeeArith cos sin atof) 1 s1 = update (ieeeArith cos sin atof) s1 := rfl
  rw [hu, hx, hy]
  norm_num

/-- Claim C6 as stated fails on the `float` fields: for the invocation `sim`
with no argument the first call of `update` stores the position
`(4095959 / 8192, 9863167 / 32768)`, whose squared distance from `(400, 300)`
is `10737417152785 / 1073741824`, about 9999.99899, and not `100 ^ 2`.  The
library values are `cos_sample` and `sin_sample`; `ieee_default_off_circle`
shows the same for every library accurate to `1 / 10 ^ 9`. -/
theorem C6_counterexample :
    ∃ s0 s1 : State ℚ,
      parse_args (ieeeArith cos_sample sin_sample atof_sample) ["sim"] = .ok s0 ∧
      start_up (ieeeArith cos_sample sin_sample atof_sample)
          { init := 0, create := 0, error := "" } s0 = .ok s1 ∧
      (updates (ieeeArith cos_sample sin_sample atof_sample) 1 s1).x = 4095959 / 8192 ∧
      (updates (ieeeArith cos_sample sin_sample atof_sample) 1 s1).y = 9863167 / 32768 ∧
      ((updates (ieeeArith cos_sample sin_sample atof_sample) 1 s1).x - 400) ^ 2
          + ((updates (ieeeArith cos_sample sin_sample atof_sample) 1 s1).y - 300) ^ 2
        ≠ 100 ^ 2 :=
  ieee_default_off_circle cos_sample sin_sample atof_sample sample_accurate

/-- Claim C6, amended: for an argument list in which no token after `argv[0]`
begins with `-`, with both SDL calls succeeding, `parse_args` returns
`e = 0`, `alpha = 100` and the 800×600 window, `start_up` returns `p = 100`
and the focus `(400, 300)`, and after every number `N ≥ 1` of calls of
`update` the stored radius is 100, in IEEE arithmetic as over the reals;
with the arithmetic read over the reals the position then lies at distance
exactly 100 from `(400, 300)`. -/
theorem C6_default_orbit (atof : String → ℝ) (sdl : SdlInit) (argv : List String) (N : ℕ)
    (hflags : ∀ t ∈ argv.tail, t.data.head? ≠ some '-')
    (hinit : 0 ≤ sdl.init) (hcreate : 0 ≤ sdl.create) (hN : 1 ≤ N) :
    (∃ s0 s1 : State ℝ,
      parse_args (exactArith Real.cos Real.sin atof) argv = .ok s0 ∧
      start_up (exactArith Real.cos Real.sin atof) sdl s0 = .ok s1 ∧
      s0.e = 0 ∧ s0.alpha = 100 ∧ s0.window_width = 800 ∧ s0.window_height = 600 ∧
      s1.e = 0 ∧ s1.alpha = 100 ∧ s1.p = 100 ∧ s1.focus_x = 400 ∧ s1.focus_y = 300 ∧
      (updates (exactArith Real.cos Real.sin atof) N s1).r = 100 ∧
      ((updates (exactArith Real.cos Real.sin atof) N s1).x - 400) ^ 2
          + ((updates (exactArith Real.cos Real.sin atof) N s1).y - 300) ^ 2 = 100 ^ 2) ∧
    ∀ (cosq sinq : ℚ → ℚ) (atofq : String → ℚ),
      ∃ t0 t1 : State ℚ,
        parse_args (ieeeArith cosq sinq atofq) argv = .ok t0 ∧
        start_up (ieeeArith cosq sinq atofq) sdl t0 = .ok t1 ∧
        t0.e = 0 ∧ t0.alpha = 100 ∧ t0.window_width = 800 ∧ t0.window_height = 600 ∧
        t1.e = 0 ∧ t1.alpha = 100 ∧ t1.p = 100 ∧ t1.focus_x = 400 ∧ t1.focus_y = 300 ∧
        (updates (ieeeArith cosq sinq atofq) N t1).r = 100 :=
  ⟨default_orbit_exact atof sdl argv N hflags hinit hcreate hN,
    fun cosq sinq atofq => default_orbit_ieee cosq sinq atofq sdl argv N hflags hinit hcreate hN⟩

/-- Witness of `C6_default_orbit`: the invocation `sim` with no argument,
seven calls of `update`. -/
theorem C6_default_orbit_witness :
    ∃ s0 s1 : State ℝ,
      parse_args (exactArith Real.cos Real.sin (fun _ => 0)) ["sim"] = .ok s0 ∧
      start_up (exactArith Real.cos Real.sin (fun _ => 0)) { init := 0, create := 0, error := "" } s0
        = .ok s1 ∧
      s1.p = 100 ∧
      ((updates (exactArith Real.cos Real.sin (fun _ => 0)) 7 s1).x - 400) ^ 2
          + ((updates (exactArith Real.cos Real.sin (fun _ => 0)) 7 s1).y - 300) ^ 2 = 100 ^ 2 := by
  obtain ⟨s0, s1, h0, h1, _, _, _, _, _, _, hp, _, _, _, hd⟩ :=
    (C6_default_orbit (fun _ => 0) { init := 0, create := 0, error := "" } ["sim"] 7
      (by simp) (by decide) (by decide) (by decide)).1
  exact ⟨s0, s1, h0, h1, hp, hd⟩

/-- Writing the same value at the same index keeps two arrays in agreement
below `K`. -/
theorem set_agree (l1 l2 : List String) (K n : Nat) (a : String) (h1 : n < l1.length)
    (h2 : n < l2.length) (hag : ∀ j, j < K → l1.getD j "" = l2.getD j "") :
    ∀ j, j < K → (l1.set n a).getD j "" = (l2.set n a).getD j "" := by
  intro j hj
  have h := hag j hj
  simp only [List.getD_eq_getElem?_getD] at h ⊢
  by_cases hnj : n = j
  · subst hnj
    rw [List.getElem?_set_eq_of_lt a h1, List.getElem?_set_eq_of_lt a h2]
  · rw [List.getElem?_set_ne hnj, List.getElem?_set_ne hnj]
    exact h

/-- An iteration at an index below `K` does the same on two states that
agree below `K`, provided it ends below `K` and both arrays reach that far. -/
theorem parse_token_agree {F : Type} (A : Arith F) (argc argc2 : Nat) (progname : String)
    (K j j2 : Nat) (s s2 t : State F) (hagree : AgreeUpTo K s s2)
    (hlen : s.args.length = argc) (hlen2 : s2.args.length = argc2)
    (hnum : s.numargs < j) (hj2 : j2 < K) (hK : K ≤ argc) (hK2 : K ≤ argc2)
    (h : parse_token A argc progname j s = .ok (j2, t)) :
    ∃ t2 : State F, parse_token A argc2 progname j s2 = .ok (j2, t2) ∧ AgreeUpTo K t t2 := by
  have hjlt := parse_token_lt A argc progname j s j2 t h
  obtain ⟨l, rfl, hag⟩ := hagree
  have hlen2 : l.length = argc2 := hlen2
  have htok : l.getD j "" = s.args.getD j "" := (hag j (by omega)).symm
  unfold parse_token at h ⊢
  simp only [htok] at h ⊢
  split_ifs at h ⊢
  all_goals simp only [Except.ok.injEq, Prod.mk.injEq, reduceCtorEq] at h ⊢
  · obtain ⟨h1, rfl⟩ := h
    exact ⟨_, ⟨h1, rfl⟩, l, rfl, hag⟩
  · omega
  · obtain ⟨h1, rfl⟩ := h
    have hval : l.getD (j + 1) "" = s.args.getD (j + 1) "" := (hag (j + 1) (by omega)).symm
    rw [hval]
    exact ⟨_, ⟨h1, rfl⟩, l, rfl, hag⟩
  · omega
  · obtain ⟨h1, rfl⟩ := h
    have hval : l.getD (j + 1) "" = s.args.getD (j + 1) "" := (hag (j + 1) (by omega)).symm
    rw [hval]
    exact ⟨_, ⟨h1, rfl⟩, l, rfl, hag⟩
  · obtain ⟨h1, rfl⟩ := h
    exact ⟨_, ⟨h1, rfl⟩, l.set s.numargs (s.args.getD j ""), rfl,
      set_agree s.args l K s.numargs _ (by omega) (by omega) hag⟩

/-- A configuration the scan of one array reaches at index `i` is reached,
up to the entries after `i`, by the scan of every array with the same first
`i + 1` entries. -/
theorem scan_after_agree {F : Type} (A : Arith F) (argc argc2 : Nat) (progname : String)
    (argv : List String) (n i : Nat) (hi : i < argc) (hi2 : i < argc2) (j : Nat)
    (s s2 sI : State F) (hagree : AgreeUpTo (i + 1) s s2)
    (hinv : ScanInv argv j s) (hlen : argv.length = argc) (hlen2 : s2.args.length = argc2)
    (h : scan_after A argc progname n (j, s) = some (i, sI)) :
    ∃ sI2 : State F, scan_after A argc2 progname n (j, s2) = some (i, sI2) ∧
      AgreeUpTo (i + 1) sI sI2 := by
  induction n generalizing j s s2 with
  | zero =>
    simp only [scan_after, Option.some.injEq, Prod.mk.injEq] at h
    obtain ⟨rfl, rfl⟩ := h
    exact ⟨s2, rfl, hagree⟩
  | succ k ih =>
    simp only [scan_after] at h
    split_ifs at h with hlt
    cases hstep : parse_token A argc progname j s with
    | error x => rw [hstep] at h; cases h
    | ok c =>
      obtain ⟨j2, t⟩ := c
      rw [hstep] at h
      have hle := scan_after_index_le A argc progname k j2 t i sI h
      have hjlt := parse_token_lt A argc progname j s j2 t hstep
      obtain ⟨t2, hstep2, hag2⟩ :=
        parse_token_agree A argc argc2 progname (i + 1) j j2 s s2 t hagree
          (by rw [hinv.1, hlen]) hlen2 hinv.2.1 (by omega) (by omega) (by omega) hstep
      have hlen2b : t2.args.length = argc2 := by
        have hinv2 : ScanInv s2.args j s2 :=
          ⟨rfl, by obtain ⟨l, rfl, _⟩ := hagree; exact hinv.2.1, fun _ _ => rfl⟩
        rw [(parse_token_inv A argc2 progname s2.args j s2 j2 t2 hinv2 hstep2).1, hlen2]
      obtain ⟨sI2, hscan2, hagI⟩ :=
        ih j2 t t2 hag2 (parse_token_inv A argc progname argv j s j2 t hinv hstep) hlen2b h
      refine ⟨sI2, ?_, hagI⟩
      simp only [scan_after]
      rw [if_pos (by omega), hstep2]
      exact hscan2

/-- The exit of `parse_args` when the scan reaches a token that begins with
`-` and is none of the four flags. -/
theorem unknown_flag_exit {F : Type} [Field F] (A : Arith F) (argv : List String) (n i : Nat)
    (s : State F)
    (hreach : scan_after A argv.length (argv.getD 0 "") n (1, init_state argv) = some (i, s))
    (hi : i < argv.length)
    (hflag : (argv.getD i "").data.head? = some '-')
    (hh : argv.getD i "" ≠ "-h") (hf : argv.getD i "" ≠ "-f")
    (he : argv.getD i "" ≠ "-e") (ha : argv.getD i "" ≠ "-a") :
    parse_args A argv = .error (die ("Unknown flag \"" ++ argv.getD i "" ++ "\"")) := by
  have hinv := scan_after_inv A argv.length (argv.getD 0 "") argv n 1 (init_state argv) i s
    (init_inv argv) hreach
  have htok : s.args.getD i "" = argv.getD i "" := hinv.2.2 i (le_refl i)
  unfold parse_args
  rw [scan_after_loop A argv.length (argv.getD 0 "") n 1 (init_state argv) i s hreach]
  apply parse_loop_exit A argv.length (argv.getD 0 "") i s _ hi
  rw [← htok] at hflag hh hf he ha ⊢
  exact parse_token_unknown A argv.length (argv.getD 0 "") i s hflag hh hf he ha

/-- Two arrays with the same first `k` entries have the same entry at every
index below `k`. -/
theorem getD_of_take_eq (l1 l2 : List String) (k j : Nat) (h : l2.take k = l1.take k)
    (hj : j < k) : l2.getD j "" = l1.getD j "" := by
  have h1 : (l2.take k)[j]? = l2[j]? := by rw [List.getElem?_take, if_pos hj]
  have h2 : (l1.take k)[j]? = l1[j]? := by rw [List.getElem?_take, if_pos hj]
  simp only [List.getD_eq_getElem?_getD]
  rw [← h1, ← h2, h]

/-! ## Command-line flags (claims C4, C5) -/

/-- Claim C4: for every argument list, when the scan of `parse_args` is at a
token `-e` (respectively `-a`) that is followed by another token, that
iteration stores the `float` conversion of `atof` of the next token in `e`
(respectively `alpha`), changes nothing else and continues the scan two
indices further; when `-e` or `-a` is the last token, `parse_args` ends in
`die` with the message that the flag expects a numerical argument. -/
theorem C4_value_flags {F : Type} [Field F] (A : Arith F) (argv : List String) (n i : Nat)
    (s : State F)
    (hreach : scan_after A argv.length (argv.getD 0 "") n (1, init_state argv) = some (i, s))
    (hi : i < argv.length) :
    (argv.getD i "" = "-e" →
      (i + 1 < argv.length →
        parse_token A argv.length (argv.getD 0 "") i s
            = .ok (i + 2, { s with e := A.toFloat (A.atof (argv.getD (i + 1) "")) }) ∧
          parse_args A argv
            = parse_loop A argv.length (argv.getD 0 "") (i + 2)
                { s with e := A.toFloat (A.atof (argv.getD (i + 1) "")) }) ∧
      (i + 1 = argv.length →
        parse_args A argv
          = .error { status := 0, stderr := "ERROR: -e flag expects a numerical argument\n" })) ∧
    (argv.getD i "" = "-a" →
      (i + 1 < argv.length →
        parse_token A argv.length (argv.getD 0 "") i s
            = .ok (i + 2, { s with alpha := A.toFloat (A.atof (argv.getD (i + 1) "")) }) ∧
          parse_args A argv
            = parse_loop A argv.length (argv.getD 0 "") (i + 2)
                { s with alpha := A.toFloat (A.atof (argv.getD (i + 1) "")) }) ∧
      (i + 1 = argv.length →
        parse_args A argv
          = .error { status := 0, stderr := "ERROR: -a flag expects a numerical argument\n" })) := by
  have hinv := scan_after_inv A argv.length (argv.getD 0 "") argv n 1 (init_state argv) i s
    (init_inv argv) hreach
  have htok : s.args.getD i "" = argv.getD i "" := hinv.2.2 i (le_refl i)
  have hval : s.args.getD (i + 1) "" = argv.getD (i + 1) "" := hinv.2.2 (i + 1) (by omega)
  have hloop : parse_args A argv = parse_loop A argv.length (argv.getD 0 "") i s :=
    scan_after_loop A argv.length (argv.getD 0 "") n 1 (init_state argv) i s hreach
  refine ⟨fun hE => ⟨fun hnext => ?_, fun hlast => ?_⟩, fun hA => ⟨fun hnext => ?_, fun hlast => ?_⟩⟩
  · have hstep := parse_token_e A argv.length (argv.getD 0 "") i s (htok.trans hE) hnext
    rw [hval] at hstep
    exact ⟨hstep, hloop.trans (parse_loop_step _ _ _ i s _ _ hi hstep)⟩
  · rw [hloop]
    exact parse_loop_exit _ _ _ i s _ hi
      (parse_token_e_last A argv.length (argv.getD 0 "") i s (htok.trans hE) (by omega))
  · have hstep := parse_token_a A argv.length (argv.getD 0 "") i s (htok.trans hA) hnext
    rw [hval] at hstep
    exact ⟨hstep, hloop.trans (parse_loop_step _ _ _ i s _ _ hi hstep)⟩
  · rw [hloop]
    exact parse_loop_exit _ _ _ i s _ hi
      (parse_token_a_last A argv.length (argv.getD 0 "") i s (htok.trans hA) (by omega))

/-- Witness of `C4_value_flags`: `sim -e 0.5 -a 200` sets `e = 0.5` and
`alpha = 200`, and `sim -a` ends in the configuration error. -/
theorem C4_value_flags_witness :
    parse_args (exactArith (fun _ => 1) (fun _ => 0) atof_sample) ["sim", "-e", "0.5", "-a", "200"]
        = .ok { init_state ["sim", "-e", "0.5", "-a", "200"] with e := 1 / 2, alpha := 200 } ∧
      parse_args (exactArith (fun _ => 1) (fun _ => 0) atof_sample) ["sim", "-a"]
        = .error { status := 0, stderr := "ERROR: -a flag expects a numerical argument\n" } := by
  constructor
  · have h1 := ((C4_value_flags (exactArith (fun _ => 1) (fun _ => 0) atof_sample)
      ["sim", "-e", "0.5", "-a", "200"] 0 1 _ rfl (by decide)).1 rfl).1 (by decide)
    have hreach : scan_after (exactArith (fun _ => 1) (fun _ => 0) atof_sample) 5 "sim" 1
        (1, init_state ["sim", "-e", "0.5", "-a", "200"])
        = some (1 + 2, { init_state ["sim", "-e", "0.5", "-a", "200"] with
            e := (exactArith (fun _ => 1) (fun _ => 0) atof_sample).toFloat (atof_sample "0.5") }) := by
      have h := h1.1
      simp only [scan_after]
      rw [if_pos (by decide)]
      simp only [List.length_cons, List.length_nil] at h
      rw [show (["sim", "-e", "0.5", "-a", "200"].getD 0 "") = "sim" from rfl] at h
      rw [h]
      rfl
    have h2 := ((C4_value_flags (exactArith (fun _ => 1) (fun _ => 0) atof_sample)
      ["sim", "-e", "0.5", "-a", "200"] 1 3 _ hreach (by decide)).2 rfl).1 (by decide)
    rw [h2.2, parse_loop_done _ _ _ _ _ (by decide)]
    simp [exactArith, atof_sample]
  · exact ((C4_value_flags (exactArith (fun _ => 1) (fun _ => 0) atof_sample)
      ["sim", "-a"] 0 1 _ rfl (by decide)).2 rfl).2 rfl

/-- Claim C5: for every argument list, when the scan of `parse_args` is at a
token that begins with `-` and is none of `-h`, `-f`, `-e`, `-a`,
`parse_args` ends there in `die`: the exit status is 0, the message on
standard error is `ERROR: Unknown flag "<token>"` and so contains the token,
and the result is the same for every argument list with the same tokens up
to that one: no later token is examined. -/
theorem C5_unknown_flag {F : Type} [Field F] (A : Arith F) (argv : List String) (n i : Nat)
    (s : State F)
    (hreach : scan_after A argv.length (argv.getD 0 "") n (1, init_state argv) = some (i, s))
    (hi : i < argv.length)
    (hflag : (argv.getD i "").data.head? = some '-')
    (hh : argv.getD i "" ≠ "-h") (hf : argv.getD i "" ≠ "-f")
    (he : argv.getD i "" ≠ "-e") (ha : argv.getD i "" ≠ "-a") :
    parse_args A argv
        = .error { status := 0,
                   stderr := "ERROR: Unknown flag \"" ++ argv.getD i "" ++ "\"\n" } ∧
      (argv.getD i "").data <:+: ("ERROR: Unknown flag \"" ++ argv.getD i "" ++ "\"\n").data ∧
      ∀ argv2 : List String, argv2.take (i + 1) = argv.take (i + 1) →
        parse_args A argv2
          = .error { status := 0,
                     stderr := "ERROR: Unknown flag \"" ++ argv.getD i "" ++ "\"\n" } := by
  have hmsg : ∀ tok : String,
      die ("Unknown flag \"" ++ tok ++ "\"")
        = { status := 0, stderr := "ERROR: Unknown flag \"" ++ tok ++ "\"\n" } := by
    intro tok
    have e1 : "ERROR: " ++ "Unknown flag \"" = "ERROR: Unknown flag \"" := by decide
    have e2 : "\"" ++ "\n" = "\"\n" := by decide
    rw [die, ← e1, ← e2]
    simp only [String.append_assoc]
  refine ⟨?_, ?_, ?_⟩
  · rw [← hmsg]
    exact unknown_flag_exit A argv n i s hreach hi hflag hh hf he ha
  · refine ⟨"ERROR: Unknown flag \"".data, "\"\n".data, ?_⟩
    simp only [String.data_append]
  · intro argv2 htake
    have hlen2 : i < argv2.length := by
      have h1 : (argv2.take (i + 1)).length = (argv.take (i + 1)).length := by rw [htake]
      simp only [List.length_take] at h1
      omega
    have hget : ∀ j, j < i + 1 → argv2.getD j "" = argv.getD j "" :=
      fun j hj => getD_of_take_eq argv argv2 (i + 1) j htake hj
    have hprog : argv2.getD 0 "" = argv.getD 0 "" := hget 0 (by omega)
    have hag : AgreeUpTo (i + 1) (init_state argv : State F) (init_state argv2) :=
      ⟨argv2, rfl, fun j hj => (hget j hj).symm⟩
    obtain ⟨sI2, hscan2, _⟩ :=
      scan_after_agree A argv.length argv2.length (argv.getD 0 "") argv n i hi hlen2 1
        (init_state argv) (init_state argv2) s hag (init_inv argv) rfl rfl hreach
    rw [← hprog] at hscan2
    have htok2 : argv2.getD i "" = argv.getD i "" := hget i (by omega)
    rw [← hmsg, ← htok2]
    rw [← htok2] at hflag hh hf he ha
    exact unknown_flag_exit A argv2 n i sI2 hscan2 hlen2 hflag hh hf he ha

/-- Witness of `C5_unknown_flag`: `sim -z -e` ends at `-z`, with the message
naming `-z` and exit status 0. -/
theorem C5_unknown_flag_witness :
    parse_args (exactArith (fun _ => 1) (fun _ => 0) atof_sample) ["sim", "-z", "-e"]
      = .error { status := 0, stderr := "ERROR: Unknown flag \"-z\"\n" } :=
  (C5_unknown_flag (exactArith (fun _ => 1) (fun _ => 0) atof_sample) ["sim", "-z", "-e"] 0 1 _ rfl
    (by decide) (by decide) (by decide) (by decide) (by decide) (by decide)).1

/-! ## Facts about `handle_events` and `run` -/

/-- One event changes at most the termination flag, and sets it exactly for
a window-close request or a key-press of the escape key. -/
theorem handle_event_eq {F : Type} (s : State F) (e : Event) :
    handle_event s e = { s with quit := if quit_requested e then 1 else s.quit } := by
  unfold handle_event
  by_cases h1 : e.type = SDL_QUIT
  · have hy : quit_requested e := Or.inl h1
    rw [if_pos h1, if_pos hy]
  · by_cases h2 : e.type = SDL_KEYDOWN
    · by_cases h3 : e.sym = SDLK_ESCAPE
      · have hy : quit_requested e := Or.inr ⟨h2, h3⟩
        rw [if_neg h1, if_pos h2, if_pos h3, if_pos hy]
      · have hn : ¬ quit_requested e := by
          rintro (h | ⟨_, h⟩)
          · exact h1 h
          · exact h3 h
        rw [if_neg h1, if_pos h2, if_neg h3, if_neg hn]
    · have hn : ¬ quit_requested e := by
        rintro (h | ⟨h, _⟩)
        · exact h1 h
        · exact h2 h
      rw [if_neg h1, if_neg h2, if_neg hn]

/-- Draining the queue changes at most the termination flag, and sets it
exactly when one of the pending events is a window-close request or a
key-press of the escape key. -/
theorem handle_events_eq {F : Type} (s : State F) (pending : List Event) :
    handle_events s pending
      = { s with quit := if ∃ e ∈ pending, quit_requested e then 1 else s.quit } := by
  unfold handle_events
  induction pending generalizing s with
  | nil => simp
  | cons a rest ih =>
    rw [List.foldl_cons, ih, handle_event_eq]
    by_cases ha : quit_requested a
    · simp [ha]
    · simp [ha]

/-- With the flag set the loop of `run` is left at once. -/
theorem run_quit {F : Type} [Field F] [DecidableEq F] (A : Arith F) (frames : List Frame)
    (s : State F) (log : List Action) (h : s.quit = 1) :
    run A frames s log = some (s, log) := by
  cases frames with
  | nil => simp [run, h]
  | cons f rest => simp [run, h]

/-- Over frames without a terminating event the loop keeps running: each
frame is one `update` and one entry group in the log. -/
theorem run_append {F : Type} [Field F] [DecidableEq F] (A : Arith F)
    (pre rest : List Frame) (s : State F) (log : List Action) (hq : s.quit ≠ 1)
    (hpre : ∀ g ∈ pre, ∀ e ∈ g.events, ¬ quit_requested e) :
    run A (pre ++ rest) s log
      = run A rest (updates A pre.length s) (log ++ frames_log pre) := by
  induction pre generalizing s log with
  | nil => simp [updates, frames_log]
  | cons g tl ih =>
    have hg : ¬ ∃ e ∈ g.events, quit_requested e := by
      rintro ⟨e, he, hqe⟩
      exact hpre g (List.mem_cons_self g tl) e he hqe
    have hstate : handle_events (update A s) g.events = update A s := by
      rw [handle_events_eq, if_neg hg]
    have hq2 : (update A s).quit ≠ 1 := hq
    show run A (g :: (tl ++ rest)) s log = _
    rw [run, if_pos hq, hstate,
      ih (update A s) (log ++ frame_actions g) hq2
        (fun g2 hg2 => hpre g2 (List.mem_cons_of_mem g hg2))]
    simp only [List.length_cons, updates, frames_log, List.append_assoc]

/-! ## Termination of the loop (claim C7) -/

/-- Claim C7: for every list of frames whose first frame with a
window-close request or an escape key-press is `f`, coming after the frames
`pre`, the loop of `run` started with the flag clear makes exactly
`pre.length + 1` iterations, whatever frames follow, and returns with the
flag set; on the frames `pre` alone it is still running.  `handle_events`
looks at every pending event, changes nothing but the flag, sets it exactly
when one of the events is of those two kinds and never clears it; with the
flag set `run` makes no further call. -/
theorem C7_termination {F : Type} [Field F] [DecidableEq F] (A : Arith F) (s : State F)
    (log : List Action) (pre : List Frame) (f : Frame) (post : List Frame)
    (hq : s.quit ≠ 1)
    (hpre : ∀ g ∈ pre, ∀ e ∈ g.events, ¬ quit_requested e)
    (hf : ∃ e ∈ f.events, quit_requested e) :
    run A (pre ++ f :: post) s log
        = some ({ updates A (pre.length + 1) s with quit := 1 },
            log ++ frames_log (pre ++ [f])) ∧
      run A pre s log = none ∧
      (∀ (t : State F) (pending : List Event),
        handle_events t pending
          = { t with quit := if ∃ e ∈ pending, quit_requested e then 1 else t.quit }) ∧
      (∀ (t : State F) (pending : List Event),
        t.quit = 1 → (handle_events t pending).quit = 1) ∧
      ∀ (t : State F) (frames : List Frame) (lg : List Action),
        t.quit = 1 → run A frames t lg = some (t, lg) := by
  have hquit : (updates A pre.length s).quit ≠ 1 := by
    rw [(updates_frame A pre.length s).2.2.2.2.2]
    exact hq
  refine ⟨?_, ?_, handle_events_eq, ?_, fun t frames lg h => run_quit A frames t lg h⟩
  · rw [run_append A pre (f :: post) s log hq hpre, run, if_pos hquit, handle_events_eq,
      if_pos hf, run_quit A post _ _ rfl, updates_succ_last]
    have hlog : frames_log (pre ++ [f]) = frames_log pre ++ frame_actions f := by
      clear hpre hquit
      induction pre with
      | nil => simp [frames_log]
      | cons g tl ih => simp [frames_log, ih]
    rw [hlog, List.append_assoc]
  · have h := run_append A pre [] s log hq hpre
    rw [List.append_nil] at h
    rw [h, run, if_pos hquit]
  · intro t pending h
    rw [handle_events_eq]
    show (if ∃ e ∈ pending, quit_requested e then (1 : Int) else t.quit) = 1
    split_ifs
    · rfl
    · exact h

/-- Witness of `C7_termination`: a frame with a mouse event, then a frame
with an escape key-press, then a frame that is never reached; the loop makes
two iterations. -/
theorem C7_termination_witness :
    ∃ t : State ℚ,
      run (exactArith (fun _ => 1) (fun _ => 0) atof_sample)
          [{ start := 0, now := 5, events := [{ type := 0x400, sym := 0 }] },
            { start := 16, now := 20, events := [{ type := 0x300, sym := 27 }] },
            { start := 32, now := 40, events := [] }]
          (init_state ["sim"]) []
        = some (t,
          [Action.update, Action.render, Action.handle_events, Action.delay 11,
            Action.update, Action.render, Action.handle_events, Action.delay 12]) ∧
      t.quit = 1 := by
  have h := (C7_termination (exactArith (fun _ => 1) (fun _ => 0) atof_sample)
    (init_state ["sim"]) []
    [{ start := 0, now := 5, events := [{ type := 0x400, sym := 0 }] }]
    { start := 16, now := 20, events := [{ type := 0x300, sym := 27 }] }
    [{ start := 32, now := 40, events := [] }]
    (by decide) (by decide) (by decide)).1
  exact ⟨_, h, rfl⟩

end Sim
